import Mathlib

/-!
# Verification of the `bdk_core_staging` wallet core

A shallow embedding, in Lean 4, of the three source files of the repository:

* `src/bdk_core/src/sparse_chain.rs` (`SparseChain`, `CheckpointCandidate`,
  `ApplyResult`, `StaleReason`);
* `src/bdk_core/src/coin_select.rs` (`CoinSelector`, `CoinSelectorOpt`,
  `WeightedValue`, `Selection`);
* `src/bdk_keychain/src/keychain_txout_index.rs` (`KeychainTxOutIndex`).

Modelling conventions:

* `Txid` and `BlockHash` are 32-byte values on which the code only performs
  equality and ordering; they are modelled as `ℕ` (`Txid::all_zeros()` is the
  minimum, modelled as `0`).
* `u32`/`u64`/`usize` quantities are modelled as `ℕ`.  Machine arithmetic that
  can overflow or underflow is modelled as abnormal termination (`Except`,
  matching the behaviour of `debug_assertions` builds, where Rust's `+`/`-`
  panic on overflow); explicitly checked operations (`checked_sub`) are
  modelled with `Option`, exactly as in the source.
* `BTreeMap` / `BTreeSet` are modelled as association lists / lists kept in
  ascending key order by construction; `HashMap` / `HashSet` (which are
  unordered in Rust) are modelled as association lists / lists.
* `f32` is modelled exactly: a sum type of NaN, the two infinities and the
  finite (dyadic-rational) values, with IEEE-754 round-to-nearest-even
  rounding of exact rational results.
-/

namespace BdkCore

/-! ## Association-list primitives shared by the map/set models -/

/-- First-match lookup in an association list (the map `get` operation). -/
def lookupA (l : List (ℕ × ℕ)) (k : ℕ) : Option ℕ :=
  match l with
  | [] => none
  | (k', v) :: t => if k = k' then some v else lookupA t k

/-- `HashMap::insert`: overwrite any binding of `k` with `v`.  The Rust map is
unordered, so representing the new binding at the head is faithful. -/
def insertA (l : List (ℕ × ℕ)) (k v : ℕ) : List (ℕ × ℕ) :=
  (k, v) :: l.filter (fun p => p.1 ≠ k)

/-- `HashMap::remove`: drop every binding of `k`. -/
def removeA (l : List (ℕ × ℕ)) (k : ℕ) : List (ℕ × ℕ) :=
  l.filter (fun p => p.1 ≠ k)

/-- Ordered insertion into a `BTreeMap` modelled as an ascending association
list, overwriting the value if the key is already bound. -/
def insertSortedMap (l : List (ℕ × ℕ)) (k v : ℕ) : List (ℕ × ℕ) :=
  match l with
  | [] => [(k, v)]
  | (k', v') :: t =>
    if k < k' then (k, v) :: (k', v') :: t
    else if k = k' then (k, v) :: t
    else (k', v') :: insertSortedMap t k v

/-- Ordered insertion of a `(height, txid)` pair into a `BTreeSet` modelled as
an ascending (lexicographic) list; a no-op when the pair is already present. -/
def insertSortedPair (l : List (ℕ × ℕ)) (p : ℕ × ℕ) : List (ℕ × ℕ) :=
  match l with
  | [] => [p]
  | q :: t =>
    if p.1 < q.1 ∨ (p.1 = q.1 ∧ p.2 < q.2) then p :: q :: t
    else if p = q then q :: t
    else q :: insertSortedPair t p

/-- Membership of a txid in the mempool model (`HashSet::contains`). -/
def memMem (l : List ℕ) (t : ℕ) : Bool := l.contains t

/-- `HashSet::insert`: a no-op when already present. -/
def insertMem (l : List ℕ) (t : ℕ) : List ℕ :=
  if l.contains t then l else t :: l

/-- `HashSet::remove`. -/
def removeMem (l : List ℕ) (t : ℕ) : List ℕ :=
  l.filter (fun x => x ≠ t)

/-- Ordered insertion into a `BTreeSet<usize>` modelled as an ascending
list; a no-op when the element is already present. -/
def insertSortedNat (l : List ℕ) (x : ℕ) : List ℕ :=
  match l with
  | [] => [x]
  | y :: t =>
    if x < y then x :: y :: t
    else if x = y then y :: t
    else y :: insertSortedNat t x

/-! ## `sparse_chain.rs`: data model -/

/-- `BlockId`: a `(height, hash)` pair with structural equality. -/
structure BlockId where
  height : ℕ
  hash : ℕ
deriving DecidableEq, Repr

/-- The `SparseChain` tracker state (`sparse_chain.rs`, lines 6–22). -/
structure SparseChain where
  /-- `checkpoints: BTreeMap<u32, BlockHash>` — block height to checkpoint
  hash, ascending by height. -/
  checkpoints : List (ℕ × ℕ)
  /-- `txid_by_height: BTreeSet<(u32, Txid)>` — txids prepended by
  confirmation height, ascending lexicographically. -/
  txid_by_height : List (ℕ × ℕ)
  /-- `txid_to_index: HashMap<Txid, u32>` — confirmation heights of txids. -/
  txid_to_index : List (ℕ × ℕ)
  /-- `mempool: HashSet<Txid>` — the unconfirmed txids. -/
  mempool : List ℕ
  /-- `checkpoint_limit: usize` — `0` means no limit. -/
  checkpoint_limit : ℕ
deriving DecidableEq, Repr

/-- `SparseChain::default()`: everything empty, no checkpoint limit. -/
def SparseChain.empty : SparseChain :=
  { checkpoints := [], txid_by_height := [], txid_to_index := [],
    mempool := [], checkpoint_limit := 0 }

/-- `StaleReason` (`sparse_chain.rs`, lines 39–53). -/
inductive StaleReason where
  | invalidationHashNotMatching (got : Option ℕ) (expected : BlockId)
  | baseTipNotMatching (got : Option BlockId) (expected : BlockId)
  | txidHeightGreaterThanNewTip (tip : BlockId) (txid : ℕ × Option ℕ)
deriving DecidableEq, Repr

/-- `ApplyResult` (`sparse_chain.rs`, lines 24–37). -/
inductive ApplyResult where
  | ok
  | stale (reason : StaleReason)
  | inconsistent (txid : ℕ) (conflicts_with : ℕ)
deriving DecidableEq, Repr

/-- `CheckpointCandidate` (`sparse_chain.rs`, lines 317–330). -/
structure CheckpointCandidate where
  txids : List (ℕ × Option ℕ)
  base_tip : Option BlockId
  invalidate : Option BlockId
  new_tip : BlockId
deriving DecidableEq, Repr

namespace SparseChain

/-- `SparseChain::latest_checkpoint`: the last entry of the ascending
checkpoint map, i.e. the tip. -/
def latestCheckpoint (s : SparseChain) : Option BlockId :=
  s.checkpoints.getLast?.map (fun p => ⟨p.1, p.2⟩)

/-- `SparseChain::checkpoint_at`. -/
def checkpointAt (s : SparseChain) (height : ℕ) : Option BlockId :=
  (lookupA s.checkpoints height).map (fun hash => ⟨height, hash⟩)

/-- `SparseChain::transaction_at`. -/
def transactionAt (s : SparseChain) (txid : ℕ) : Option (Option ℕ) :=
  if s.mempool.contains txid then some none
  else (lookupA s.txid_to_index txid).map some

/-- `SparseChain::invalidate_checkpoints` (lines 237–250): drop all
checkpoints with height ≥ `height` (`BTreeMap::split_off` keeps the keys
below the split point), drop all `(h, txid)` pairs with `h ≥ height` (the
split point `(height, Txid::all_zeros())` is the least pair of that height),
remove each dropped txid from `txid_to_index` (the `debug_assert!` is a
release-mode no-op and is not modelled), and clear the mempool whenever any
confirmed txid was removed. -/
def invalidateCheckpoints (s : SparseChain) (height : ℕ) : SparseChain :=
  let removed_txids := s.txid_by_height.filter (fun p => height ≤ p.1)
  { s with
    checkpoints := s.checkpoints.filter (fun p => p.1 < height)
    txid_by_height := s.txid_by_height.filter (fun p => p.1 < height)
    txid_to_index := removed_txids.foldl (fun m p => removeA m p.2) s.txid_to_index
    mempool := if removed_txids.isEmpty then s.mempool else [] }

/-- `SparseChain::clear_mempool`. -/
def clearMempool (s : SparseChain) : SparseChain :=
  { s with mempool := [] }

/-- `SparseChain::disconnect_block` (lines 225–234). -/
def disconnectBlock (s : SparseChain) (block_id : BlockId) : SparseChain :=
  match lookupA s.checkpoints block_id.height with
  | some checkpoint_hash =>
    if checkpoint_hash = block_id.hash then
      (s.invalidateCheckpoints block_id.height).clearMempool
    else s
  | none => s

/-- `SparseChain::prune_checkpoints` (lines 305–312): with a non-zero limit,
find the key that is `checkpoint_limit` positions from the top of the
checkpoint map and `split_off` at it.  `BTreeMap::split_off(&h)` RETURNS the
sub-map of keys `≥ h` and KEEPS the keys `< h` in `self`. -/
def pruneCheckpoints (s : SparseChain) : Option (List (ℕ × ℕ)) × SparseChain :=
  if 0 < s.checkpoint_limit then
    match (s.checkpoints.map Prod.fst).reverse.get? s.checkpoint_limit with
    | some height =>
      (some (s.checkpoints.filter (fun p => height ≤ p.1)),
       { s with checkpoints := s.checkpoints.filter (fun p => p.1 < height) })
    | none => (none, s)
  else (none, s)

/-- `SparseChain::set_checkpoint_limit`. -/
def setCheckpointLimit (s : SparseChain) (limit : Option ℕ) : SparseChain :=
  { s with checkpoint_limit := limit.getD 0 }

/-- The per-txid pre-validation loop of `apply_checkpoint` (lines 156–182),
returning the first failure if any.  No state is modified. -/
def validateTxids (s : SparseChain) (c : CheckpointCandidate) :
    List (ℕ × Option ℕ) → Option ApplyResult
  | [] => none
  | (txid, new_height) :: rest =>
    if (match new_height with
        | some h => decide (c.new_tip.height < h)
        | none => false) then
      some (.stale (.txidHeightGreaterThanNewTip c.new_tip (txid, new_height)))
    else
      match lookupA s.txid_to_index txid with
      | some height =>
        if (match c.invalidate with
            | some invalid => decide (invalid.height ≤ height)
            | none => false) then
          validateTxids s c rest
        else if new_height = some height then
          validateTxids s c rest
        else
          some (.inconsistent txid txid)
      | none => validateTxids s c rest

/-- The merge loop of `apply_checkpoint` (lines 200–213): confirmed entries
are inserted into `txid_by_height` and, when newly inserted, recorded in
`txid_to_index` and removed from the mempool; unconfirmed entries are added
to the mempool. -/
def mergeTxids (s : SparseChain) : List (ℕ × Option ℕ) → SparseChain
  | [] => s
  | (txid, conf) :: rest =>
    match conf with
    | some height =>
      let s' :=
        if (height, txid) ∈ s.txid_by_height then s
        else
          { s with
            txid_by_height := insertSortedPair s.txid_by_height (height, txid)
            txid_to_index := insertA s.txid_to_index txid height
            mempool := removeMem s.mempool txid }
      mergeTxids s' rest
    | none => mergeTxids { s with mempool := insertMem s.mempool txid } rest

/-- The mutating tail of `apply_checkpoint` (lines 196–216), entered once all
checks have passed and any invalidation has been performed: install the new
tip if absent (`entry(..).or_insert_with(..)`), merge the candidate txids,
prune, and report `Ok`. -/
def applyCheckpointTail (s : SparseChain) (c : CheckpointCandidate) :
    ApplyResult × SparseChain :=
  let s₁ :=
    match lookupA s.checkpoints c.new_tip.height with
    | some _ => s
    | none => { s with checkpoints := insertSortedMap s.checkpoints c.new_tip.height c.new_tip.hash }
  let s₂ := mergeTxids s₁ c.txids
  (.ok, (s₂.pruneCheckpoints).2)

/-- `apply_checkpoint` after the base-tip rule has been enforced: the
pre-validation loop, then the invalidation check and invalidation, then the
mutating tail. -/
def applyCheckpointPostBase (s : SparseChain) (c : CheckpointCandidate) :
    ApplyResult × SparseChain :=
  match validateTxids s c c.txids with
  | some r => (r, s)
  | none =>
    match c.invalidate with
    | some invalid =>
      let block_hash := lookupA s.checkpoints invalid.height
      if block_hash ≠ some invalid.hash then
        (.stale (.invalidationHashNotMatching block_hash invalid), s)
      else
        applyCheckpointTail (s.invalidateCheckpoints invalid.height) c
    | none => applyCheckpointTail s c

/-- `SparseChain::apply_checkpoint` (lines 144–217). -/
def applyCheckpoint (s : SparseChain) (c : CheckpointCandidate) :
    ApplyResult × SparseChain :=
  -- enforce base-tip rule (if any)
  match c.base_tip with
  | some exp_tip =>
    if s.latestCheckpoint ≠ some exp_tip then
      (.stale (.baseTipNotMatching s.latestCheckpoint exp_tip), s)
    else applyCheckpointPostBase s c
  | none => applyCheckpointPostBase s c

/-- `SparseChain::apply_block_txs` (lines 118–140). -/
def applyBlockTxs (s : SparseChain) (block_id : BlockId) (transactions : List ℕ) :
    ApplyResult × SparseChain :=
  let checkpoint : CheckpointCandidate :=
    { txids := transactions.map (fun txid => (txid, some block_id.height))
      base_tip := s.latestCheckpoint
      invalidate := none
      new_tip := block_id }
  let checkpoint :=
    match s.checkpointAt block_id.height with
    | some matching_checkpoint =>
      if matching_checkpoint.hash ≠ block_id.hash then
        { checkpoint with invalidate := some matching_checkpoint }
      else checkpoint
    | none => checkpoint
  s.applyCheckpoint checkpoint

end SparseChain

/-! ## Sequences of `SparseChain` operations

The mutating public interface of `SparseChain`, as an operation type, so that
properties "after every sequence of operations" can be stated as invariants of
all states reachable from `SparseChain::default()`. -/

/-- One mutating `SparseChain` call. -/
inductive ChainOp where
  | applyCheckpoint (c : CheckpointCandidate)
  | applyBlockTxs (block_id : BlockId) (transactions : List ℕ)
  | disconnectBlock (block_id : BlockId)
  | clearMempool
  | setCheckpointLimit (limit : Option ℕ)
  | pruneCheckpoints
deriving DecidableEq, Repr

/-- Execute one operation (discarding the reported result). -/
def ChainOp.step (s : SparseChain) : ChainOp → SparseChain
  | .applyCheckpoint c => (s.applyCheckpoint c).2
  | .applyBlockTxs b txs => (s.applyBlockTxs b txs).2
  | .disconnectBlock b => s.disconnectBlock b
  | .clearMempool => s.clearMempool
  | .setCheckpointLimit l => s.setCheckpointLimit l
  | .pruneCheckpoints => (s.pruneCheckpoints).2

/-- The state after running a call sequence from `SparseChain::default()`. -/
def runChain (ops : List ChainOp) : SparseChain :=
  ops.foldl ChainOp.step SparseChain.empty

/-- A candidate txid list never lists a txid as unconfirmed (`None`) after
listing the same txid as confirmed (`Some _`). -/
def NoConfirmedThenNone (txids : List (ℕ × Option ℕ)) : Prop :=
  txids.Pairwise (fun p q => p.1 = q.1 → q.2 = none → p.2 = none)

instance : DecidablePred NoConfirmedThenNone := fun l =>
  List.instDecidablePairwise l

/-- A candidate txid list never lists the same txid at two different
confirmation heights. -/
def NoTwoHeights (txids : List (ℕ × Option ℕ)) : Prop :=
  txids.Pairwise (fun p q => p.1 = q.1 → p.2 = none ∨ q.2 = none ∨ p.2 = q.2)

instance : DecidablePred NoTwoHeights := fun l =>
  List.instDecidablePairwise l

/-- The `NoConfirmedThenNone` restriction, lifted to an operation (only
`apply_checkpoint` takes a caller-supplied candidate). -/
def ChainOp.GoodNoMix : ChainOp → Prop
  | .applyCheckpoint c => NoConfirmedThenNone c.txids
  | _ => True

/-- The `NoTwoHeights` restriction, lifted to an operation. -/
def ChainOp.GoodHeights : ChainOp → Prop
  | .applyCheckpoint c => NoTwoHeights c.txids
  | _ => True

instance : DecidablePred ChainOp.GoodNoMix := fun op => by
  cases op <;> simp only [ChainOp.GoodNoMix] <;> infer_instance

instance : DecidablePred ChainOp.GoodHeights := fun op => by
  cases op <;> simp only [ChainOp.GoodHeights] <;> infer_instance

/-- The two `SparseChain` invariants under scrutiny.  `Disjointness`: no
mempool txid is confirmed (spec P2); `MapIntoSet`: every `txid_to_index`
binding `txid ↦ h` has its pair `(h, txid)` in `txid_by_height` (one half of
spec P1). -/
def Disjointness (s : SparseChain) : Prop :=
  ∀ t ∈ s.mempool, lookupA s.txid_to_index t = none

instance : DecidablePred Disjointness := fun s =>
  List.decidableBAll (fun t => lookupA s.txid_to_index t = none) s.mempool

/-- `txid_to_index ⊆ txid_by_height`, as a relation between the two confirmed
structures. -/
def MapIntoSet (s : SparseChain) : Prop :=
  ∀ t h, lookupA s.txid_to_index t = some h → (h, t) ∈ s.txid_by_height

/-- Spec P1 in full: `txid ↦ h ∈ txid_to_index ⟺ (h, txid) ∈ txid_by_height`. -/
def ChainBijection (s : SparseChain) : Prop :=
  ∀ t h, lookupA s.txid_to_index t = some h ↔ (h, t) ∈ s.txid_by_height

/-! ## An exact model of IEEE-754 `binary32` (`f32`)

`coin_select.rs` compares and multiplies `f32` feerates.  Every finite `f32`
is an integer multiple of `2⁻¹⁴⁹` (the subnormal unit), so a finite value is
carried as that integer: `fin k` denotes the real number `k · 2⁻¹⁴⁹`.  The
arithmetic used by the source (`/`, `*`, comparisons, `ceil`, casts) is
round-to-nearest-even of the exact rational result, implemented here with
exact integer division so that the kernel can evaluate it. -/

/-- Round-to-nearest integer with ties to even, of the exact ratio `a / b`
(`b > 0`). -/
def rnte (a b : ℕ) : ℕ :=
  let d := a / b
  let r := a % b
  if 2 * r < b then d
  else if b < 2 * r then d + 1
  else if d % 2 = 0 then d else d + 1

/-- `⌊log₂ n⌋` with explicit fuel, so that the kernel can evaluate it. -/
def natLog2F : ℕ → ℕ → ℕ
  | 0, _ => 0
  | fuel + 1, n => if 2 ≤ n then natLog2F fuel (n / 2) + 1 else 0

/-- `⌊log₂ n⌋` (`0` for `n ≤ 1`). -/
def natLog2 (n : ℕ) : ℕ := natLog2F n n

/-- `⌈log₂ n⌉` (`0` for `n ≤ 1`). -/
def natClog2 (n : ℕ) : ℕ := if n ≤ 1 then 0 else natLog2 (n - 1) + 1

/-- `⌈a / b⌉` on naturals. -/
def ceilDivN (a b : ℕ) : ℕ := (a + b - 1) / b

/-- An IEEE-754 `binary32` value.  `fin k` is the finite value `k · 2⁻¹⁴⁹`
(the sign of zero is not tracked; it is irrelevant to the operations the
source performs). -/
inductive F32 where
  | nan
  | posInf
  | negInf
  | fin (k : ℤ)
deriving DecidableEq, Repr

namespace F32

/-- Round the positive rational `p / q` (`p, q > 0`) to `binary32`,
round-to-nearest-even.  With `e = ⌊log₂ (p/q)⌋`, the unit in the last place
of the result is `2^(max (e−23) (−149))`, i.e. `2^(max (e+126) 0)` in
`2⁻¹⁴⁹`-units; rounded magnitudes of `2¹²⁸` or beyond overflow to `+∞`. -/
def roundPos (p q : ℕ) : F32 :=
  if p = 0 then fin 0
  else
    -- `e = ⌊log₂ (p/q)⌋`, using `⌊log₂ x⌋ = −⌈log₂ x⁻¹⌉` below `1`
    let e : ℤ := if q ≤ p then (natLog2 (p / q) : ℤ) else -(natClog2 (ceilDivN q p) : ℤ)
    let s : ℕ := (e + 126).toNat
    -- the candidate mantissa: round((p/q) · 2¹⁴⁹ / 2ˢ) to nearest, ties to even
    let m : ℕ := if s ≤ 149 then rnte (p * 2 ^ (149 - s)) q else rnte p (q * 2 ^ (s - 149))
    let k : ℕ := m * 2 ^ s
    if 2 ^ 277 ≤ k then posInf else fin (k : ℤ)

/-- Round the exact rational `n / d` (`d > 0`, any sign on `n`) to the
nearest `binary32` value. -/
def roundRat (n : ℤ) (d : ℕ) : F32 :=
  if n = 0 then fin 0
  else if 0 < n then roundPos n.toNat d
  else
    match roundPos (-n).toNat d with
    | posInf => negInf
    | fin v => fin (-v)
    | r => r

/-- A `u64`/`u32` integer converted to `f32` (`as f32`): round to nearest. -/
def ofNat (m : ℕ) : F32 := roundPos m 1

/-- `f32` division.  The operands produced by the source are finite; division
by zero follows IEEE (`0/0` is NaN, `x/0` a signed infinity).  For finite
operands the exact quotient is `(a·2⁻¹⁴⁹)/(b·2⁻¹⁴⁹) = a/b`. -/
def div : F32 → F32 → F32
  | nan, _ => nan
  | _, nan => nan
  | posInf, posInf => nan
  | posInf, negInf => nan
  | negInf, posInf => nan
  | negInf, negInf => nan
  | posInf, fin b => if 0 ≤ b then posInf else negInf
  | negInf, fin b => if 0 ≤ b then negInf else posInf
  | fin _, posInf => fin 0
  | fin _, negInf => fin 0
  | fin a, fin b =>
    if b = 0 then
      if a = 0 then nan else if 0 < a then posInf else negInf
    else if 0 ≤ b then roundRat a b.toNat
    else roundRat (-a) (-b).toNat

/-- `f32` multiplication.  For finite operands the exact product is
`(a·2⁻¹⁴⁹)·(b·2⁻¹⁴⁹) = (a·b)/2²⁹⁸` in real value. -/
def mul : F32 → F32 → F32
  | nan, _ => nan
  | _, nan => nan
  | posInf, posInf => posInf
  | posInf, negInf => negInf
  | negInf, posInf => negInf
  | negInf, negInf => posInf
  | posInf, fin b => if b = 0 then nan else if 0 < b then posInf else negInf
  | negInf, fin b => if b = 0 then nan else if 0 < b then negInf else posInf
  | fin a, posInf => if a = 0 then nan else if 0 < a then posInf else negInf
  | fin a, negInf => if a = 0 then nan else if 0 < a then negInf else posInf
  | fin a, fin b => roundRat (a * b) (2 ^ 298)

/-- The `f32` `<` comparison; any comparison involving NaN is `false`. -/
def lt : F32 → F32 → Bool
  | nan, _ => false
  | _, nan => false
  | negInf, negInf => false
  | negInf, _ => true
  | _, negInf => false
  | posInf, _ => false
  | fin _, posInf => true
  | fin a, fin b => decide (a < b)

/-- `f32::ceil`.  Every finite `f32` of magnitude ≥ 2²³ is already an
integer, and the ceiling of any smaller value is exactly representable, so
the result is the exact ceiling `⌈k / 2¹⁴⁹⌉ · 2¹⁴⁹` in `2⁻¹⁴⁹`-units. -/
def ceil : F32 → F32
  | fin k => fin ((k + 2 ^ 149 - 1).fdiv (2 ^ 149) * 2 ^ 149)
  | x => x

/-- The saturating Rust cast `as u64`: NaN and negative values go to `0`,
values beyond `u64::MAX` (and `+∞`) to `u64::MAX`, others truncate toward
zero (`⌊k / 2¹⁴⁹⌋` for `k ≥ 0`). -/
def toU64 : F32 → ℕ
  | nan => 0
  | negInf => 0
  | posInf => 2 ^ 64 - 1
  | fin k => if k < 0 then 0 else min (k.toNat / 2 ^ 149) (2 ^ 64 - 1)

end F32

/-! ## `coin_select.rs`: data model

Machine integer arithmetic (`u64`/`u32` `+`/`-`) is modelled in `Except`,
with `.error` as the abnormal termination of a `debug_assertions` build
(Rust's `+`/`-` panic on wrap there); the source's explicit `checked_sub` is
modelled with `Option` exactly as written. -/

/-- u64 addition; overflow is a program error. -/
def addU64 (a b : ℕ) : Except String ℕ :=
  if a + b < 2 ^ 64 then .ok (a + b) else .error "attempt to add with overflow"

/-- u64 subtraction; underflow is a program error. -/
def subU64 (a b : ℕ) : Except String ℕ :=
  if b ≤ a then .ok (a - b) else .error "attempt to subtract with overflow"

/-- u32 addition; overflow is a program error. -/
def addU32 (a b : ℕ) : Except String ℕ :=
  if a + b < 2 ^ 32 then .ok (a + b) else .error "attempt to add with overflow"

/-- `u64::checked_sub`. -/
def checkedSubU64 (a b : ℕ) : Option ℕ :=
  if b ≤ a then some (a - b) else none

/-- `TXIN_BASE_WEIGHT = (32 + 4 + 4 + 1) * 4` (`coin_select.rs`, line 5). -/
def TXIN_BASE_WEIGHT : ℕ := (32 + 4 + 4 + 1) * 4

/-- `WeightedValue { value: u64, weight: u32 }`. -/
structure WeightedValue where
  value : ℕ
  weight : ℕ
deriving DecidableEq, Repr

/-- `CoinSelectorOpt` (`coin_select.rs`, lines 20–34). -/
structure CoinSelectorOpt where
  target_value : ℕ
  target_feerate : F32
  min_absolute_fee : ℕ
  base_weight : ℕ
  drain_weight : ℕ
  starting_input_value : ℕ
deriving DecidableEq, Repr

/-- `CoinSelector` (`coin_select.rs`, lines 7–12).  `selected:
BTreeSet<usize>` is modelled as an ascending duplicate-free list, kept so by
construction. -/
structure CoinSelector where
  candidates : List WeightedValue
  selected : List ℕ
  opts : CoinSelectorOpt
deriving DecidableEq, Repr

/-- `Selection` (`coin_select.rs`, lines 179–186). -/
structure Selection where
  selected : List ℕ
  excess : ℕ
  fee : ℕ
  use_change : Bool
  total_weight : ℕ
deriving DecidableEq, Repr

namespace CoinSelector

/-- `CoinSelector::new`. -/
def new (candidates : List WeightedValue) (opts : CoinSelectorOpt) : CoinSelector :=
  { candidates := candidates, selected := [], opts := opts }

/-- `CoinSelector::select` (lines 76–79): `assert!(index < len)` then insert. -/
def select (cs : CoinSelector) (index : ℕ) : Except String CoinSelector :=
  if index < cs.candidates.length then
    .ok { cs with selected := insertSortedNat cs.selected index }
  else .error "assertion failed: index < self.candidates.len()"

/-- `CoinSelector::selected` (lines 89–93): the selected indices, ascending,
paired with their candidates; `.unwrap()` on a missing index is a program
error. -/
def selectedList (cs : CoinSelector) : Except String (List (ℕ × WeightedValue)) :=
  cs.selected.mapM fun index =>
    match cs.candidates.get? index with
    | some wv => .ok (index, wv)
    | none => .error "called `Option::unwrap()` on a `None` value"

/-- `CoinSelector::current_weight` (lines 81–87):
`base_weight + Σ (weight + TXIN_BASE_WEIGHT)` in u32. -/
def currentWeight (cs : CoinSelector) : Except String ℕ := do
  let sel ← selectedList cs
  let sum ← sel.foldlM (fun acc p => do addU32 acc (← addU32 p.2.weight TXIN_BASE_WEIGHT)) 0
  addU32 cs.opts.base_weight sum

/-- `CoinSelector::current_value` (lines 119–121):
`starting_input_value + Σ value` in u64. -/
def currentValue (cs : CoinSelector) : Except String ℕ := do
  let sel ← selectedList cs
  let sum ← sel.foldlM (fun acc p => addU64 acc p.2.value) 0
  addU64 cs.opts.starting_input_value sum

/-- `CoinSelector::unselected` (lines 95–98): all candidate indices not yet
selected, ascending. -/
def unselected (cs : CoinSelector) : List ℕ :=
  (List.range cs.candidates.length).filter (fun i => ¬ cs.selected.contains i)

/-- `CoinSelector::all_selected` (lines 100–102). -/
def allSelected (cs : CoinSelector) : Bool :=
  cs.selected.length = cs.candidates.length

/-- `CoinSelector::finish` (lines 123–176). -/
def finish (cs : CoinSelector) : Except String (Option Selection) := do
  let base_weight ← currentWeight cs
  let cv ← currentValue cs
  if cv < cs.opts.target_value then return none
  -- guarded by the comparison above, so this u64 subtraction cannot wrap
  let inputs_minus_outputs := cv - cs.opts.target_value
  -- check fee rate satisfied
  let feerate_without_change := F32.div (F32.ofNat inputs_minus_outputs) (F32.ofNat base_weight)
  -- we simply don't have enough fee to acheieve the feerate
  if F32.lt feerate_without_change cs.opts.target_feerate then return none
  if inputs_minus_outputs < cs.opts.min_absolute_fee then return none
  let weight_with_change ← addU32 base_weight cs.opts.drain_weight
  let target_fee_with_change :=
    max (F32.toU64 (F32.ceil (F32.mul cs.opts.target_feerate (F32.ofNat weight_with_change))))
      cs.opts.min_absolute_fee
  let target_fee_without_change :=
    max (F32.toU64 (F32.ceil (F32.mul cs.opts.target_feerate (F32.ofNat base_weight))))
      cs.opts.min_absolute_fee
  match checkedSubU64 inputs_minus_outputs target_fee_with_change with
  | some excess =>
    return some
      { selected := cs.selected, excess := excess, fee := target_fee_with_change,
        use_change := true, total_weight := weight_with_change }
  | none =>
    -- `self.current_value() - target_fee_without_change` is NOT checked in
    -- the source; underflow is a program error
    let implied_output_value ← subU64 cv target_fee_without_change
    match checkedSubU64 implied_output_value cs.opts.target_value with
    | some excess =>
      return some
        { selected := cs.selected, excess := excess, fee := target_fee_without_change,
          use_change := false, total_weight := base_weight }
    | none => return none

/-- The loop of `CoinSelector::select_until_finished` (lines 104–117).  The
iterator `self.unselected()` is evaluated once, before the loop. -/
def selectUntilFinishedGo (cs : CoinSelector) :
    List ℕ → Except String (Option Selection × CoinSelector)
  | [] => .ok (none, cs)
  | next :: rest => do
    match ← finish cs with
    | some s => .ok (some s, cs)
    | none => selectUntilFinishedGo (← select cs next) rest

/-- `CoinSelector::select_until_finished` (lines 104–117). -/
def selectUntilFinished (cs : CoinSelector) :
    Except String (Option Selection × CoinSelector) :=
  selectUntilFinishedGo cs (unselected cs)

end CoinSelector

/-! ## `keychain_txout_index.rs`: data model

Keychains `K` and scripts are modelled as `ℕ`.  A descriptor is abstracted to
its wildcard flag and its (external, miniscript-provided) derivation map; a
`none` result of `scriptAt` models a `derived_descriptor` error (a descriptor
needing hardened derivation), which `store_up_to` turns into a panic via
`.expect(..)`. -/

/-- A `Descriptor<DescriptorPublicKey>`, abstracted to the two capabilities
the index uses: `has_wildcard()` and
`at_derivation_index(i).derived_descriptor(..)?.script_pubkey()`. -/
structure Descriptor where
  hasWildcard : Bool
  scriptAt : ℕ → Option ℕ

/-- Modelled from the spec: `SpkTxOutIndex` is not under `src/`; of its four
components (§4.3 of the design) only the ordered tag→script mapping touched
by `add_spk` and `script_pubkeys()` is exercised by the claims, so only it is
modelled.  Tags here are `(keychain, derivation index)` pairs. -/
structure SpkTxOutIndex where
  spks : List ((ℕ × ℕ) × ℕ)

/-- Modelled from the spec: `SpkTxOutIndex::add_spk` inserts the tag→script
mapping (behaviour on a tag already mapped to a different script is
implementation-defined; the keychain index never does that). -/
def SpkTxOutIndex.addSpk (inner : SpkTxOutIndex) (tag : ℕ × ℕ) (spk : ℕ) :
    SpkTxOutIndex :=
  { spks := (tag, spk) :: inner.spks.filter (fun p => p.1 ≠ tag) }

/-- `KeychainTxOutIndex<K>` (`keychain_txout_index.rs`, lines 46–50). -/
structure KeychainTxOutIndex where
  inner : SpkTxOutIndex
  keychains : List (ℕ × Descriptor)

/-- `KeychainTxOutIndex::default()`. -/
def KeychainTxOutIndex.empty : KeychainTxOutIndex :=
  { inner := ⟨[]⟩, keychains := [] }

namespace KeychainTxOutIndex

/-- `BTreeMap::get` on the keychain→descriptor map. -/
def lookupKeychain (idx : KeychainTxOutIndex) (keychain : ℕ) : Option Descriptor :=
  match idx.keychains.find? (fun p => p.1 = keychain) with
  | some p => some p.2
  | none => none

/-- `KeychainTxOutIndex::derivation_index` (lines 143–149): the last tag of
the inner range `(k, u32::MIN) ..= (k, u32::MAX)`, i.e. the highest stored
derivation index for `keychain`. -/
def derivationIndex (idx : KeychainTxOutIndex) (keychain : ℕ) : Option ℕ :=
  ((idx.inner.spks.filter (fun p => p.1.1 = keychain)).map (fun p => p.1.2)).max?

/-- `KeychainTxOutIndex::next_derivation_index` (lines 136–140). -/
def nextDerivationIndex (idx : KeychainTxOutIndex) (keychain : ℕ) : ℕ :=
  match idx.derivationIndex keychain with
  | some index => index + 1
  | none => 0

/-- `KeychainTxOutIndex::store_up_to` (lines 176–202).  An unknown keychain
returns `false`; a hardened-derivation failure inside the loop is a panic
(`.expect(..)`), modelled as `.error`. -/
def storeUpTo (idx : KeychainTxOutIndex) (keychain : ℕ) (up_to : ℕ) :
    Except String (Bool × KeychainTxOutIndex) :=
  match idx.lookupKeychain keychain with
  | none => .ok (false, idx)
  | some descriptor =>
    let e := if descriptor.hasWildcard then up_to else 0
    let next_to_derive := idx.nextDerivationIndex keychain
    if e < next_to_derive then .ok (false, idx)
    else do
      let idx' ← (List.range' next_to_derive (e + 1 - next_to_derive)).foldlM
        (fun acc index =>
          match descriptor.scriptAt index with
          | some spk =>
            .ok { acc with inner := acc.inner.addSpk (keychain, index) spk }
          | none => .error "the descritpor cannot need hardened derivation")
        idx
      .ok (true, idx')

end KeychainTxOutIndex

/-! ## Shared lemmas about `apply_checkpoint` -/

namespace SparseChain

/-- The mutating tail always reports `Ok`. -/
theorem applyCheckpointTail_fst (s : SparseChain) (c : CheckpointCandidate) :
    (applyCheckpointTail s c).1 = .ok := rfl

/-- If the post-base-tip part of `apply_checkpoint` reports anything but
`Ok`, it has not touched the state. -/
theorem applyCheckpointPostBase_not_ok (s : SparseChain) (c : CheckpointCandidate)
    (h : (s.applyCheckpointPostBase c).1 ≠ .ok) : (s.applyCheckpointPostBase c).2 = s := by
  revert h
  unfold applyCheckpointPostBase
  split
  · exact fun _ => rfl
  · split
    · dsimp only
      split
      · exact fun _ => rfl
      · exact fun h => absurd rfl h
    · exact fun h => absurd rfl h

/-- If `apply_checkpoint` reports anything but `Ok`, it has not touched the
state: all three failing returns precede the first mutation. -/
theorem applyCheckpoint_not_ok (s : SparseChain) (c : CheckpointCandidate)
    (h : (s.applyCheckpoint c).1 ≠ .ok) : (s.applyCheckpoint c).2 = s := by
  revert h
  unfold applyCheckpoint
  split
  · split
    · exact fun _ => rfl
    · exact fun h => applyCheckpointPostBase_not_ok s c h
  · exact fun h => applyCheckpointPostBase_not_ok s c h

end SparseChain

/-! ## Claims C1, C10: failure atomicity and the `disconnect_block` frame -/

/-- C1: for every `SparseChain` state and every `CheckpointCandidate`, if
`apply_checkpoint` returns a non-`Ok` result (`Stale` with any reason, or
`Inconsistent`), the entire state after the call (checkpoints,
txid_by_height, txid_to_index, mempool, checkpoint_limit) equals the state
before the call: all failure detection happens before any mutation. -/
theorem C1_applyCheckpoint_non_ok_is_pure (s : SparseChain) (c : CheckpointCandidate)
    (h : (s.applyCheckpoint c).1 ≠ .ok) : (s.applyCheckpoint c).2 = s :=
  SparseChain.applyCheckpoint_not_ok s c h

/-- Witness for C1: a base-tip mismatch on the empty chain is rejected as
`Stale` and leaves the state untouched. -/
theorem C1_applyCheckpoint_non_ok_is_pure_witness :
    (SparseChain.empty.applyCheckpoint
        { txids := [(7, some 1)], base_tip := some ⟨1, 11⟩, invalidate := none,
          new_tip := ⟨2, 22⟩ }).1 ≠ .ok ∧
    (SparseChain.empty.applyCheckpoint
        { txids := [(7, some 1)], base_tip := some ⟨1, 11⟩, invalidate := none,
          new_tip := ⟨2, 22⟩ }).2 = SparseChain.empty :=
  ⟨by decide, C1_applyCheckpoint_non_ok_is_pure _ _ (by decide)⟩

/-- C10: for every `SparseChain` state and every `BlockId` `b` such that no
checkpoint exists at `b.height` or the stored hash there differs from
`b.hash`, `disconnect_block(b)` leaves the entire state unchanged (no
invalidation, no txid removal, no mempool clearing). -/
theorem C10_disconnectBlock_no_match_is_pure (s : SparseChain) (b : BlockId)
    (h : lookupA s.checkpoints b.height ≠ some b.hash) :
    s.disconnectBlock b = s := by
  unfold SparseChain.disconnectBlock
  cases hl : lookupA s.checkpoints b.height with
  | none => rfl
  | some checkpoint_hash =>
    dsimp only
    rw [if_neg]
    intro he
    exact h (he ▸ hl)

/-- Witness for C10: disconnecting at a height whose stored hash differs is a
no-op. -/
theorem C10_disconnectBlock_no_match_is_pure_witness :
    lookupA ({ checkpoints := [(5, 100)], txid_by_height := [(5, 7)],
               txid_to_index := [(7, 5)], mempool := [9],
               checkpoint_limit := 0 } : SparseChain).checkpoints 5 ≠ some 200 ∧
    ({ checkpoints := [(5, 100)], txid_by_height := [(5, 7)],
       txid_to_index := [(7, 5)], mempool := [9],
       checkpoint_limit := 0 } : SparseChain).disconnectBlock ⟨5, 200⟩ =
      { checkpoints := [(5, 100)], txid_by_height := [(5, 7)],
        txid_to_index := [(7, 5)], mempool := [9], checkpoint_limit := 0 } :=
  ⟨by decide, C10_disconnectBlock_no_match_is_pure _ ⟨5, 200⟩ (by decide)⟩

/-! ## Claim C2: `prune_checkpoints` prunes the wrong end

The claim (and the design) say a limit `N > 0` retains the most recent `N+1`
checkpoints and removes the older ones.  The code finds the key `N` positions
below the tip and returns `checkpoints.split_off(&key)` — but
`BTreeMap::split_off` KEEPS the keys below the split point and RETURNS the
keys at or above it, so the code removes the `N+1` most recent checkpoints
(including the tip) and retains the oldest ones.  (The enclosing design
depends on the tip surviving: `apply_checkpoint` prunes right after
installing `new_tip`, and the next update's `base_tip` must match the
surviving tip, so removing the tip is a slip, not intent.) -/

/-- C2, failing input: checkpoints at heights 1, 2, 3 with limit `N = 1`.
The claim expects height 1 to be removed and heights 2, 3 retained;
the code retains height 1 and removes (and returns) heights 2 and 3 —
the tip included. -/
theorem C2_pruneCheckpoints_removes_newest :
    ({ checkpoints := [(1, 10), (2, 20), (3, 30)], txid_by_height := [],
       txid_to_index := [], mempool := [],
       checkpoint_limit := 1 } : SparseChain).pruneCheckpoints =
      (some [(2, 20), (3, 30)],
       { checkpoints := [(1, 10)], txid_by_height := [], txid_to_index := [],
         mempool := [], checkpoint_limit := 1 }) := by decide

/-! ## Claim C8: the `invalidate` field built by `apply_block_txs`

When a checkpoint with a different hash already exists at
`block_id.height`, the candidate's `invalidate` field is set to the STORED
checkpoint `(block_id.height, stored_hash)` — not to `block_id` itself, as
the claim states.  (It must be: `apply_checkpoint` rejects an `invalidate`
whose hash differs from the stored one.) -/

/-- C8, counterexample: with checkpoint `(5, 100)` stored and
`block_id = (5, 200)`, `apply_block_txs` succeeds, while applying the
candidate the claim describes (with `invalidate = block_id`) is rejected as
`Stale(InvalidationHashNotMatching)` — so `apply_block_txs` does not apply
the claim's candidate. -/
theorem C8_applyBlockTxs_invalidate_not_block_id :
    ({ checkpoints := [(5, 100)], txid_by_height := [], txid_to_index := [],
       mempool := [], checkpoint_limit := 0 } : SparseChain).applyBlockTxs ⟨5, 200⟩ [7] ≠
    ({ checkpoints := [(5, 100)], txid_by_height := [], txid_to_index := [],
       mempool := [], checkpoint_limit := 0 } : SparseChain).applyCheckpoint
      { txids := [(7, some 5)], base_tip := some ⟨5, 100⟩,
        invalidate := some ⟨5, 200⟩, new_tip := ⟨5, 200⟩ } := by decide

/-- C8 (amended): for every state and `block_id` with a conflicting stored
hash at `block_id.height`, `apply_block_txs(block_id, txids)` applies the
`CheckpointCandidate` whose `base_tip` is the current tip, whose txids each
carry height `block_id.height`, whose `new_tip` is `block_id`, and whose
`invalidate` field is the currently stored checkpoint
`(block_id.height, stored_hash)` at that height. -/
theorem C8_applyBlockTxs_builds_candidate (s : SparseChain) (b : BlockId)
    (txs : List ℕ) (stored : ℕ)
    (h1 : lookupA s.checkpoints b.height = some stored) (h2 : stored ≠ b.hash) :
    s.applyBlockTxs b txs =
      s.applyCheckpoint
        { txids := txs.map (fun txid => (txid, some b.height))
          base_tip := s.latestCheckpoint
          invalidate := some ⟨b.height, stored⟩
          new_tip := b } := by
  unfold SparseChain.applyBlockTxs SparseChain.checkpointAt
  rw [h1]
  simp only [Option.map_some']
  rw [if_pos h2]

/-- Witness for C8 (amended), at the same concrete input as the
counterexample. -/
theorem C8_applyBlockTxs_builds_candidate_witness :
    lookupA ({ checkpoints := [(5, 100)], txid_by_height := [],
               txid_to_index := [], mempool := [],
               checkpoint_limit := 0 } : SparseChain).checkpoints 5 = some 100 ∧
    (100 : ℕ) ≠ 200 ∧
    ({ checkpoints := [(5, 100)], txid_by_height := [], txid_to_index := [],
       mempool := [], checkpoint_limit := 0 } : SparseChain).applyBlockTxs ⟨5, 200⟩ [7] =
    ({ checkpoints := [(5, 100)], txid_by_height := [], txid_to_index := [],
       mempool := [], checkpoint_limit := 0 } : SparseChain).applyCheckpoint
      { txids := [(7, some 5)], base_tip := some ⟨5, 100⟩,
        invalidate := some ⟨5, 100⟩, new_tip := ⟨5, 200⟩ } :=
  ⟨by decide, by decide,
    C8_applyBlockTxs_builds_candidate _ ⟨5, 200⟩ [7] 100 (by decide) (by decide)⟩

/-! ## Claim C9: `store_up_to` on an unknown keychain

The claim (following §7 of the design) says `store_up_to` on a keychain never
added to the index terminates abnormally.  The code returns `false`
normally (`keychain_txout_index.rs`, lines 177–180), exactly as its own doc
comment says ("This will be false when ... the `keychain` itself was never
added to the index"). -/

/-- C9, counterexample: on the empty index (no keychain ever added),
`store_up_to(0, 5)` returns normally with `false` — it does not terminate
abnormally. -/
theorem C9_storeUpTo_unknown_keychain_returns_false :
    KeychainTxOutIndex.empty.storeUpTo 0 5 = .ok (false, KeychainTxOutIndex.empty) := rfl

/-- C9 (amended): for every index and every keychain `k` not present in the
keychain map, `store_up_to(k, n)` returns normally with `false` and leaves
the index unchanged. -/
theorem C9_storeUpTo_unknown_keychain (idx : KeychainTxOutIndex) (k n : ℕ)
    (h : (idx.lookupKeychain k).isNone = true) :
    idx.storeUpTo k n = .ok (false, idx) := by
  unfold KeychainTxOutIndex.storeUpTo
  cases hl : idx.lookupKeychain k with
  | none => rfl
  | some descriptor => rw [hl] at h; exact absurd h (by simp)

/-- Witness for C9 (amended), at the empty index. -/
theorem C9_storeUpTo_unknown_keychain_witness :
    (KeychainTxOutIndex.empty.lookupKeychain 3).isNone = true ∧
    KeychainTxOutIndex.empty.storeUpTo 3 9 = .ok (false, KeychainTxOutIndex.empty) :=
  ⟨rfl, C9_storeUpTo_unknown_keychain KeychainTxOutIndex.empty 3 9 rfl⟩

/-- `Except` equality is decidable (needed to evaluate the embedded
operations on concrete inputs). -/
instance {ε α : Type} [DecidableEq ε] [DecidableEq α] : DecidableEq (Except ε α) :=
  fun a b =>
    match a, b with
    | .ok x, .ok y => decidable_of_iff (x = y) (by simp)
    | .error e, .error f => decidable_of_iff (e = f) (by simp)
    | .ok _, .error _ => isFalse (by simp)
    | .error _, .ok _ => isFalse (by simp)

/-- `Except` bind, written as a `match` so that `split` can consume it. -/
theorem exceptBind_def {α β : Type} (e : Except String α) (f : α → Except String β) :
    (e >>= f) = match e with | .ok a => f a | .error err => .error err := by
  cases e <;> rfl

/-! ## Claim C5: the energy balance of `finish`

In the no-change branch the source sets
`excess = current_value − fee_no_change − target_value`, which can be
positive, so `current_value = target_value + fee + excess` holds there too —
the claim's `(excess if use_change else 0)` summand is wrong for
`use_change = false`. -/

set_option maxRecDepth 10000 in
/-- C5, counterexample: a selector whose `finish()` takes the no-change
branch with positive excess.  `current_value = 50` but
`target_value + fee + (excess if use_change else 0) = 0 + 10 + 0 = 10`. -/
theorem C5_finish_no_change_excess_positive :
    ({ candidates := [], selected := [],
       opts := { target_value := 0, target_feerate := F32.fin (2 ^ 149),
                 min_absolute_fee := 0, base_weight := 10, drain_weight := 100,
                 starting_input_value := 50 } } : CoinSelector).finish =
      .ok (some { selected := [], excess := 40, fee := 10, use_change := false,
                  total_weight := 10 }) ∧
    ({ candidates := [], selected := [],
       opts := { target_value := 0, target_feerate := F32.fin (2 ^ 149),
                 min_absolute_fee := 0, base_weight := 10, drain_weight := 100,
                 starting_input_value := 50 } } : CoinSelector).currentValue = .ok 50 ∧
    (50 : ℕ) ≠ 0 + 10 + 0 := by
  refine ⟨by decide, by decide, by decide⟩

/-- C5 (amended): whenever `finish()` returns `Some(s)`,
`current_value = target_value + s.fee + s.excess` (in both branches — the
excess is never dropped from the balance); and additionally, when
`s.use_change` is false, `current_value − s.fee ≥ target_value` and
`s.excess = current_value − s.fee − target_value`. -/
theorem C5_finish_energy_balance (cs : CoinSelector) (s : Selection)
    (h : cs.finish = .ok (some s)) :
    ∃ v, cs.currentValue = .ok v ∧
      v = cs.opts.target_value + s.fee + s.excess ∧
      (s.use_change = false →
        cs.opts.target_value + s.fee ≤ v ∧
        s.excess = v - s.fee - cs.opts.target_value) := by
  unfold CoinSelector.finish at h
  simp only [exceptBind_def, pure, Except.pure] at h
  -- base_weight ← currentWeight
  split at h
  case h_2 => exact absurd h (by simp)
  rename_i bw hw
  -- cv ← currentValue
  split at h
  case h_2 => exact absurd h (by simp)
  rename_i v hv
  refine ⟨v, hv, ?_⟩
  -- the three early-return guards
  split at h
  · exact absurd h (by simp [pure, Except.pure])
  split at h
  · exact absurd h (by simp [pure, Except.pure])
  split at h
  · exact absurd h (by simp [pure, Except.pure])
  -- weight_with_change ← addU32 ..
  split at h
  case h_2 => exact absurd h (by simp)
  rename_i hnlt _ _ wwc hwwc
  -- match on checked_sub (change branch?)
  split at h
  · -- change branch
    rename_i excess hc
    unfold checkedSubU64 at hc
    split at hc
    case isFalse => exact absurd hc (by simp)
    rename_i hle
    simp only [pure, Except.pure, Except.ok.injEq, Option.some.injEq] at h
    subst h
    injection hc with hc
    subst hc
    refine ⟨?_, ?_⟩ <;> dsimp only
    · omega
    · simp
  · -- no-change branch
    rename_i hc
    -- implied_output_value ← subU64 ..
    split at h
    case h_2 => exact absurd h (by simp)
    rename_i iov hsub
    unfold subU64 at hsub
    split at hsub
    case isFalse => exact absurd hsub (by simp)
    rename_i hle
    split at h
    case h_2 => exact absurd h (by simp [pure, Except.pure])
    rename_i excess hc2
    unfold checkedSubU64 at hc2
    split at hc2
    case isFalse => exact absurd hc2 (by simp)
    rename_i hle2
    simp only [pure, Except.pure, Except.ok.injEq, Option.some.injEq] at h
    subst h
    injection hsub with hsub
    subst hsub
    injection hc2 with hc2
    subst hc2
    refine ⟨?_, fun _ => ⟨?_, ?_⟩⟩ <;> dsimp only <;> omega

set_option maxRecDepth 10000 in
/-- Witness for C5 (amended): the counterexample selector again; its
no-change selection satisfies the corrected balance `50 = 0 + 10 + 40`. -/
theorem C5_finish_energy_balance_witness :
    ({ candidates := [], selected := [],
       opts := { target_value := 0, target_feerate := F32.fin (2 ^ 149),
                 min_absolute_fee := 0, base_weight := 10, drain_weight := 100,
                 starting_input_value := 50 } } : CoinSelector).finish =
      .ok (some { selected := [], excess := 40, fee := 10, use_change := false,
                  total_weight := 10 }) ∧
    ∃ v,
      ({ candidates := [], selected := [],
         opts := { target_value := 0, target_feerate := F32.fin (2 ^ 149),
                   min_absolute_fee := 0, base_weight := 10, drain_weight := 100,
                   starting_input_value := 50 } } : CoinSelector).currentValue = .ok v ∧
      v = 0 + 10 + 40 ∧
      (false = false → 0 + 10 ≤ v ∧ 40 = v - 10 - 0) :=
  ⟨by decide,
    C5_finish_energy_balance
      { candidates := [], selected := [],
        opts := { target_value := 0, target_feerate := F32.fin (2 ^ 149),
                  min_absolute_fee := 0, base_weight := 10, drain_weight := 100,
                  starting_input_value := 50 } }
      { selected := [], excess := 40, fee := 10, use_change := false,
        total_weight := 10 }
      (by decide)⟩

/-! ## Claim C6: `select_until_finished` never checks the full selection

The loop evaluates `finish()` BEFORE each selection and breaks out of the
iterator when it succeeds — but after selecting the last unselected index the
iterator is exhausted and the loop ends without a final `finish()` check, so
a selection that only becomes fundable once every candidate is selected (or
a selector that is already fundable with nothing left to select) yields
`None`. -/

/-- The state change of a successful `select`, as a pure function. -/
def CoinSelector.selectPure (cs : CoinSelector) (index : ℕ) : CoinSelector :=
  { cs with selected := insertSortedNat cs.selected index }

/-- The selector state after selecting the first `j` indices of the list `l`. -/
def CoinSelector.foldSelect (cs : CoinSelector) (l : List ℕ) (j : ℕ) : CoinSelector :=
  (l.take j).foldl CoinSelector.selectPure cs

/-- The selector state `j` iterations into `select_until_finished`: the first
`j` unselected indices (ascending) have been selected. -/
def CoinSelector.selectPrefix (cs : CoinSelector) (j : ℕ) : CoinSelector :=
  cs.foldSelect cs.unselected j

theorem CoinSelector.select_ok (cs : CoinSelector) (index : ℕ)
    (h : index < cs.candidates.length) : cs.select index = .ok (cs.selectPure index) := by
  unfold CoinSelector.select
  rw [if_pos h]
  rfl

theorem CoinSelector.selectPure_candidates (cs : CoinSelector) (index : ℕ) :
    (cs.selectPure index).candidates = cs.candidates := rfl

theorem CoinSelector.foldSelect_candidates (cs : CoinSelector) (l : List ℕ) (j : ℕ) :
    (cs.foldSelect l j).candidates = cs.candidates := by
  unfold CoinSelector.foldSelect
  generalize l.take j = t
  induction t generalizing cs with
  | nil => rfl
  | cons i t ih => exact ih (cs.selectPure i)

theorem CoinSelector.foldSelect_zero (cs : CoinSelector) (l : List ℕ) :
    cs.foldSelect l 0 = cs := rfl

theorem CoinSelector.foldSelect_cons (cs : CoinSelector) (i : ℕ) (l : List ℕ) (j : ℕ) :
    cs.foldSelect (i :: l) (j + 1) = (cs.selectPure i).foldSelect l j := rfl

/-- Characterization of the `select_until_finished` loop on an arbitrary
remaining-index list `l` of in-range indices: it returns `Some` exactly when
`finish` first succeeds after selecting some proper prefix of `l`, and the
returned state is that prefix state. -/
theorem CoinSelector.selectUntilFinishedGo_some_iff (l : List ℕ) (cs : CoinSelector)
    (hl : ∀ i ∈ l, i < cs.candidates.length) (s : Selection) (cs' : CoinSelector) :
    cs.selectUntilFinishedGo l = .ok (some s, cs') ↔
      ∃ j, j < l.length ∧ cs' = cs.foldSelect l j ∧
        (cs.foldSelect l j).finish = .ok (some s) ∧
        ∀ i < j, (cs.foldSelect l i).finish = .ok none := by
  induction l generalizing cs with
  | nil =>
    unfold selectUntilFinishedGo
    constructor
    · intro h
      exact absurd h (by simp)
    · rintro ⟨j, hj, -⟩
      exact absurd hj (by simp)
  | cons i rest ih =>
    unfold selectUntilFinishedGo
    simp only [exceptBind_def]
    rcases hf : cs.finish with e | os
    · constructor
      · intro h
        exact absurd h (by simp)
      · rintro ⟨j, hj, -, hfin, hall⟩
        rcases Nat.eq_zero_or_pos j with rfl | hpos
        · rw [foldSelect_zero] at hfin
          rw [hf] at hfin
          exact absurd hfin (by simp)
        · have := hall 0 hpos
          rw [foldSelect_zero, hf] at this
          exact absurd this (by simp)
    · rcases os with _ | s0
      · -- finish cs = ok none: recurse
        rw [select_ok cs i (hl i (by simp))]
        simp only
        rw [ih (cs.selectPure i) (fun x hx => by
          rw [selectPure_candidates]
          exact hl x (by simp [hx]))]
        constructor
        · rintro ⟨j, hj, hcs, hfin, hall⟩
          refine ⟨j + 1, by simpa using hj, by rwa [foldSelect_cons], by rwa [foldSelect_cons], ?_⟩
          intro k hk
          cases k with
          | zero => rw [foldSelect_zero, hf]
          | succ k' =>
            rw [foldSelect_cons]
            exact hall k' (by omega)
        · rintro ⟨j, hj, hcs, hfin, hall⟩
          cases j with
          | zero =>
            rw [foldSelect_zero, hf] at hfin
            exact absurd hfin (by simp)
          | succ j' =>
            rw [foldSelect_cons] at hcs hfin
            refine ⟨j', by simpa using hj, hcs, hfin, ?_⟩
            intro k hk
            have := hall (k + 1) (by omega)
            rwa [foldSelect_cons] at this
      · -- finish cs = ok (some s0): stop before selecting
        constructor
        · intro h
          simp only [Except.ok.injEq, Prod.mk.injEq, Option.some.injEq] at h
          rcases h with ⟨rfl, rfl⟩
          exact ⟨0, by simp, rfl, by rw [foldSelect_zero, hf], by omega⟩
        · rintro ⟨j, hj, hcs, hfin, hall⟩
          rcases Nat.eq_zero_or_pos j with rfl | hpos
          · rw [foldSelect_zero] at hcs hfin
            rw [hf] at hfin
            simp only [Except.ok.injEq, Option.some.injEq] at hfin
            rw [hcs, hfin]
          · have := hall 0 hpos
            rw [foldSelect_zero, hf] at this
            exact absurd this (by simp)

theorem CoinSelector.unselected_lt_length (cs : CoinSelector) :
    ∀ i ∈ cs.unselected, i < cs.candidates.length := by
  intro i hi
  unfold CoinSelector.unselected at hi
  simpa using (List.mem_filter.mp hi).1

set_option maxRecDepth 10000 in
/-- C6, counterexample: a selector already fundable with zero candidates
(`starting_input_value = 10`, `target_value = 0`, zero feerate): `finish()`
succeeds with nothing selected (the empty selection is reachable by selecting
zero indices) yet `select_until_finished()` returns `None`, because the loop
body never runs when `unselected()` is empty. -/
theorem C6_selectUntilFinished_misses_full_selection :
    ({ candidates := [], selected := [],
       opts := { target_value := 0, target_feerate := F32.fin 0,
                 min_absolute_fee := 0, base_weight := 1, drain_weight := 0,
                 starting_input_value := 10 } } : CoinSelector).selectUntilFinished =
      .ok (none,
        { candidates := [], selected := [],
          opts := { target_value := 0, target_feerate := F32.fin 0,
                    min_absolute_fee := 0, base_weight := 1, drain_weight := 0,
                    starting_input_value := 10 } }) ∧
    ({ candidates := [], selected := [],
       opts := { target_value := 0, target_feerate := F32.fin 0,
                 min_absolute_fee := 0, base_weight := 1, drain_weight := 0,
                 starting_input_value := 10 } } : CoinSelector).finish =
      .ok (some { selected := [], excess := 10, fee := 0, use_change := true,
                  total_weight := 1 }) := by
  refine ⟨by decide, by decide⟩

/-- C6 (amended): `select_until_finished` returns `Some(s)` iff `finish()`
succeeds at some state reachable by selecting, in ascending order, a PROPER
prefix of the unselected indices — the check runs before each selection, and
never again after the last index is selected, so a selection that only
succeeds with all candidates selected is missed — and the result is the
`Selection` at the first such point. -/
theorem C6_selectUntilFinished_first_proper_prefix (cs : CoinSelector)
    (s : Selection) (cs' : CoinSelector) :
    cs.selectUntilFinished = .ok (some s, cs') ↔
      ∃ j, j < cs.unselected.length ∧ cs' = cs.selectPrefix j ∧
        (cs.selectPrefix j).finish = .ok (some s) ∧
        ∀ i < j, (cs.selectPrefix i).finish = .ok none :=
  CoinSelector.selectUntilFinishedGo_some_iff cs.unselected cs
    (CoinSelector.unselected_lt_length cs) s cs'

/-! ## Claim C7: an unchecked, underflowing subtraction in `finish`

The subtraction `self.current_value() - target_fee_without_change`
(`coin_select.rs`, line 155) is not checked, and the preceding guards do not
prevent underflow: the feerate guard compares the f32 quotient
`diff / weight` against `target_feerate`, and f32 rounding lets the quotient
round UP to the target while `ceil(target_feerate · weight)` still exceeds
`diff`.  With `base_weight = 7`, `drain_weight = 0`, `target_value = 0`,
`min_absolute_fee = 0`, `starting_input_value = 57` and
`target_feerate = fl(57/7) = 8538405·2⁻²⁰` (a value the guard itself
accepts), both target fees are `58 > 57 = current_value`, the change branch's
`checked_sub` fails, and the no-change branch underflows: the call panics
under `debug_assertions` (and wraps to a huge bogus value in release) instead
of returning `None`. -/
set_option maxRecDepth 10000 in
/-- C7, failing input: `finish()` terminates abnormally (modelled as
`.error`, Rust's debug-build panic "attempt to subtract with overflow")
although every guard before the subtraction passes. -/
theorem C7_finish_subtraction_underflows :
    ({ candidates := [], selected := [],
       opts := { target_value := 0, target_feerate := F32.fin (8538405 * 2 ^ 129),
                 min_absolute_fee := 0, base_weight := 7, drain_weight := 0,
                 starting_input_value := 57 } } : CoinSelector).finish =
      .error "attempt to subtract with overflow" := by decide

/-! ## Claims C3, C4: the confirmed/mempool invariants

Both invariants fail as stated — a single `apply_checkpoint` whose candidate
lists the same txid twice can break them, because the merge loop processes
entries one at a time — and both hold for every operation sequence whose
candidates do not abuse duplicate txid entries.  The next sections build the
lemma stack: association-list facts, facts about each phase of
`apply_checkpoint`, and preservation of each invariant by each operation. -/

theorem lookupA_nil (k : ℕ) : lookupA [] k = none := rfl

theorem lookupA_cons (p : ℕ × ℕ) (t : List (ℕ × ℕ)) (k : ℕ) :
    lookupA (p :: t) k = if k = p.1 then some p.2 else lookupA t k := rfl

theorem lookupA_filter_ne (l : List (ℕ × ℕ)) (k k' : ℕ) (hne : k' ≠ k) :
    lookupA (l.filter (fun p => p.1 ≠ k)) k' = lookupA l k' := by
  induction l with
  | nil => rfl
  | cons p t ih =>
    rw [List.filter_cons]
    by_cases hp : p.1 = k
    · rw [if_neg (by simpa using hp), ih, lookupA_cons,
        if_neg (fun h : k' = p.1 => hne (h.trans hp))]
    · rw [if_pos (by simpa using hp), lookupA_cons, lookupA_cons, ih]

theorem lookupA_filter_self (l : List (ℕ × ℕ)) (k : ℕ) :
    lookupA (l.filter (fun p => p.1 ≠ k)) k = none := by
  induction l with
  | nil => rfl
  | cons p t ih =>
    rw [List.filter_cons]
    by_cases hp : p.1 = k
    · rw [if_neg (by simpa using hp), ih]
    · rw [if_pos (by simpa using hp), lookupA_cons,
        if_neg (fun h : k = p.1 => hp h.symm), ih]

theorem lookupA_insertA (l : List (ℕ × ℕ)) (k v k' : ℕ) :
    lookupA (insertA l k v) k' = if k' = k then some v else lookupA l k' := by
  unfold insertA
  rcases eq_or_ne k' k with rfl | hne
  · rw [lookupA_cons, if_pos rfl, if_pos rfl]
  · rw [lookupA_cons, if_neg hne, if_neg hne, lookupA_filter_ne l k k' hne]

theorem lookupA_removeA (l : List (ℕ × ℕ)) (k k' : ℕ) :
    lookupA (removeA l k) k' = if k' = k then none else lookupA l k' := by
  unfold removeA
  rcases eq_or_ne k' k with rfl | hne
  · rw [lookupA_filter_self, if_pos rfl]
  · rw [lookupA_filter_ne l k k' hne, if_neg hne]

/-- The `txid_to_index` removal loop of `invalidate_checkpoints`: a key is
gone afterwards iff it was a removed txid, and other keys are untouched. -/
theorem lookupA_foldl_removeA (r : List (ℕ × ℕ)) (m : List (ℕ × ℕ)) (t : ℕ) :
    lookupA (r.foldl (fun m p => removeA m p.2) m) t =
      if ∃ p ∈ r, p.2 = t then none else lookupA m t := by
  induction r generalizing m with
  | nil => simp
  | cons q r ih =>
    rw [List.foldl_cons, ih]
    by_cases hq : q.2 = t
    · by_cases hr : ∃ p ∈ r, p.2 = t
      · rw [if_pos hr, if_pos ⟨q, List.mem_cons_self q r, hq⟩]
      · rw [if_neg hr, if_pos ⟨q, List.mem_cons_self q r, hq⟩, lookupA_removeA,
          if_pos hq.symm]
    · by_cases he : ∃ p ∈ r, p.2 = t
      · obtain ⟨p, hp, hpt⟩ := he
        rw [if_pos ⟨p, hp, hpt⟩, if_pos ⟨p, List.mem_cons_of_mem q hp, hpt⟩]
      · rw [if_neg he, if_neg ?hne, lookupA_removeA, if_neg (fun h : t = q.2 => hq h.symm)]
        case hne =>
          rintro ⟨p, hp, hpt⟩
          rcases List.mem_cons.mp hp with rfl | hp
          · exact hq hpt
          · exact he ⟨p, hp, hpt⟩

theorem mem_insertSortedPair (l : List (ℕ × ℕ)) (p q : ℕ × ℕ) :
    q ∈ insertSortedPair l p ↔ q = p ∨ q ∈ l := by
  induction l with
  | nil => simp [insertSortedPair]
  | cons x t ih =>
    unfold insertSortedPair
    split
    · simp only [List.mem_cons]
      try tauto
    · split
      · rename_i hpx
        subst hpx
        simp only [List.mem_cons]
        tauto
      · simp only [List.mem_cons, ih]
        tauto

theorem mem_insertMem (l : List ℕ) (t x : ℕ) :
    x ∈ insertMem l t ↔ x = t ∨ x ∈ l := by
  unfold insertMem
  split
  · rename_i hc
    constructor
    · tauto
    · rintro (rfl | hx)
      · simpa using hc
      · exact hx
  · simp

theorem mem_removeMem (l : List ℕ) (t x : ℕ) :
    x ∈ removeMem l t ↔ x ∈ l ∧ x ≠ t := by
  unfold removeMem
  simp

/-! ### Facts about the phases of `apply_checkpoint` -/

namespace SparseChain

theorem lookupA_invalidate (s : SparseChain) (H t : ℕ) :
    lookupA (s.invalidateCheckpoints H).txid_to_index t =
      if ∃ p ∈ s.txid_by_height, H ≤ p.1 ∧ p.2 = t then none
      else lookupA s.txid_to_index t := by
  unfold invalidateCheckpoints
  dsimp only
  rw [lookupA_foldl_removeA]
  by_cases h : ∃ p ∈ s.txid_by_height, H ≤ p.1 ∧ p.2 = t
  · obtain ⟨p, hp, hH, hpt⟩ := h
    rw [if_pos ⟨p, List.mem_filter.mpr ⟨hp, by simpa using hH⟩, hpt⟩,
      if_pos ⟨p, hp, hH, hpt⟩]
  · rw [if_neg ?hc, if_neg h]
    case hc =>
      rintro ⟨p, hp, hpt⟩
      rcases List.mem_filter.mp hp with ⟨hmem, hdec⟩
      exact h ⟨p, hmem, by simpa using hdec, hpt⟩

theorem mem_invalidate_set (s : SparseChain) (H : ℕ) (q : ℕ × ℕ) :
    q ∈ (s.invalidateCheckpoints H).txid_by_height ↔
      q ∈ s.txid_by_height ∧ q.1 < H := by
  unfold invalidateCheckpoints
  dsimp only
  simp [List.mem_filter]

theorem invalidate_mempool (s : SparseChain) (H : ℕ) :
    (s.invalidateCheckpoints H).mempool =
      if (s.txid_by_height.filter (fun p => H ≤ p.1)).isEmpty then s.mempool
      else [] := rfl

/-- Invalidation can only erase `txid_to_index` entries, never change them. -/
theorem lookupA_invalidate_mono (s : SparseChain) (H t : ℕ) :
    lookupA (s.invalidateCheckpoints H).txid_to_index t = none ∨
    lookupA (s.invalidateCheckpoints H).txid_to_index t = lookupA s.txid_to_index t := by
  rw [lookupA_invalidate]
  split
  · exact Or.inl rfl
  · exact Or.inr rfl

/-- A txid confirmed at a height covered by the invalidation is erased from
`txid_to_index` (this needs `txid_to_index ⊆ txid_by_height`: the removal
loop only sees the txids of the removed `txid_by_height` entries). -/
theorem lookupA_invalidate_covered (s : SparseChain) (H t h₀ : ℕ)
    (hm : MapIntoSet s) (hl : lookupA s.txid_to_index t = some h₀) (hH : H ≤ h₀) :
    lookupA (s.invalidateCheckpoints H).txid_to_index t = none := by
  rw [lookupA_invalidate]
  exact if_pos ⟨(h₀, t), hm t h₀ hl, hH, rfl⟩

theorem prune_txid_to_index (s : SparseChain) :
    (s.pruneCheckpoints).2.txid_to_index = s.txid_to_index := by
  unfold pruneCheckpoints
  split
  · split <;> rfl
  · rfl

theorem prune_txid_by_height (s : SparseChain) :
    (s.pruneCheckpoints).2.txid_by_height = s.txid_by_height := by
  unfold pruneCheckpoints
  split
  · split <;> rfl
  · rfl

theorem prune_mempool (s : SparseChain) :
    (s.pruneCheckpoints).2.mempool = s.mempool := by
  unfold pruneCheckpoints
  split
  · split <;> rfl
  · rfl

theorem mergeTxids_nil (s : SparseChain) : s.mergeTxids [] = s := rfl

theorem mergeTxids_cons_some (s : SparseChain) (t h : ℕ) (rest : List (ℕ × Option ℕ)) :
    s.mergeTxids ((t, some h) :: rest) =
      SparseChain.mergeTxids
        (if (h, t) ∈ s.txid_by_height then s
         else
           { s with
             txid_by_height := insertSortedPair s.txid_by_height (h, t)
             txid_to_index := insertA s.txid_to_index t h
             mempool := removeMem s.mempool t }) rest := rfl

theorem mergeTxids_cons_none (s : SparseChain) (t : ℕ) (rest : List (ℕ × Option ℕ)) :
    s.mergeTxids ((t, none) :: rest) =
      SparseChain.mergeTxids { s with mempool := insertMem s.mempool t } rest := rfl

/-- The pre-validation loop never fabricates an `Ok`. -/
theorem validateTxids_ne_some_ok (s : SparseChain) (c : CheckpointCandidate) :
    ∀ l, s.validateTxids c l ≠ some .ok := by
  intro l
  induction l with
  | nil => simp [validateTxids]
  | cons p rest ih =>
    obtain ⟨txid, nh⟩ := p
    unfold validateTxids
    split
    · simp
    · split
      · split
        · exact ih
        · split
          · exact ih
          · simp
      · exact ih

/-- What a passed pre-validation guarantees for every candidate entry: a
txid already confirmed at `h₀` is either covered by the invalidation or
re-listed at the same height. -/
theorem validateTxids_none_spec (s : SparseChain) (c : CheckpointCandidate) :
    ∀ l, s.validateTxids c l = none →
      ∀ p ∈ l, ∀ h₀, lookupA s.txid_to_index p.1 = some h₀ →
        (∃ inv, c.invalidate = some inv ∧ inv.height ≤ h₀) ∨ p.2 = some h₀ := by
  intro l
  induction l with
  | nil => intro _ p hp; cases hp
  | cons q rest ih =>
    obtain ⟨txid, nh⟩ := q
    unfold validateTxids
    split
    · intro h; cases h
    · intro h p hp h₀ hl
      rcases List.mem_cons.mp hp with rfl | hp
      · -- the head entry
        revert h
        split
        · rename_i height heq
          rw [hl] at heq
          injection heq with heq
          subst heq
          split
          · rename_i hcov
            intro h
            left
            rcases hinv : c.invalidate with _ | inv
            · rw [hinv] at hcov
              exact absurd hcov (by simp)
            · rw [hinv] at hcov
              exact ⟨inv, rfl, by simpa using hcov⟩
          · split
            · rename_i hsame
              intro h
              exact Or.inr hsame
            · intro h; cases h
        · rename_i heq
          rw [hl] at heq
          cases heq
      · -- a later entry: recurse
        revert h
        split
        · split
          · exact fun h => ih h p hp h₀ hl
          · split
            · exact fun h => ih h p hp h₀ hl
            · intro h; cases h
        · exact fun h => ih h p hp h₀ hl

/-! ### Preservation of the invariants by the merge loop -/

/-- The merge loop preserves the P1 bijection, provided no txid of the
candidate is listed at two different heights and every confirmed listed txid
is re-listed at its current height (which pre-validation plus invalidation
guarantee). -/
theorem bij_mergeTxids :
    ∀ (l : List (ℕ × Option ℕ)) (s : SparseChain), ChainBijection s →
      NoTwoHeights l →
      (∀ p ∈ l, ∀ h, p.2 = some h →
        lookupA s.txid_to_index p.1 = none ∨ lookupA s.txid_to_index p.1 = some h) →
      ChainBijection (s.mergeTxids l) := by
  intro l
  induction l with
  | nil => exact fun s hb _ _ => hb
  | cons q rest ih =>
    intro s hb hB hD
    obtain ⟨t, conf⟩ := q
    have hBrest : NoTwoHeights rest := (List.pairwise_cons.mp hB).2
    have hBhead := (List.pairwise_cons.mp hB).1
    cases conf with
    | none =>
      rw [mergeTxids_cons_none]
      exact ih _ hb hBrest (fun p hp h hs => hD p (List.mem_cons_of_mem _ hp) h hs)
    | some h =>
      rw [mergeTxids_cons_some]
      by_cases hmem : (h, t) ∈ s.txid_by_height
      · rw [if_pos hmem]
        exact ih s hb hBrest (fun p hp h hs => hD p (List.mem_cons_of_mem _ hp) h hs)
      · rw [if_neg hmem]
        have hDhead := hD (t, some h) (List.mem_cons_self _ _) h rfl
        refine ih _ ?_ hBrest ?_
        · -- the bijection survives the threefold update
          intro t' h'
          show lookupA (insertA s.txid_to_index t h) t' = some h' ↔
            (h', t') ∈ insertSortedPair s.txid_by_height (h, t)
          rw [lookupA_insertA, mem_insertSortedPair]
          rcases eq_or_ne t' t with rfl | hne
          · rw [if_pos rfl]
            constructor
            · intro hh
              injection hh with hh
              subst hh
              exact Or.inl rfl
            · rintro (he | hset)
              · injection he with he
                rw [he]
              · have := (hb t' h').mpr hset
                rcases hDhead with hnone | hsome
                · rw [this] at hnone; cases hnone
                · rw [this] at hsome
                  injection hsome with hs2
                  rw [hs2]
          · rw [if_neg hne]
            constructor
            · intro hl
              exact Or.inr ((hb t' h').mp hl)
            · rintro (he | hset)
              · injection he with he1 he2
                exact absurd he2 hne
              · exact (hb t' h').mpr hset
        · -- later entries stay consistent with the updated index
          intro p hp h'' hs
          show lookupA (insertA s.txid_to_index t h) p.1 = none ∨
            lookupA (insertA s.txid_to_index t h) p.1 = some h''
          rw [lookupA_insertA]
          rcases eq_or_ne p.1 t with he | hne
          · rw [if_pos he]
            right
            have := hBhead p hp he.symm
            rcases this with h1 | h2 | h3
            · cases h1
            · rw [hs] at h2; cases h2
            · rw [hs] at h3
              injection h3 with h3
              rw [h3]
          · rw [if_neg hne]
            exact hD p (List.mem_cons_of_mem _ hp) h'' hs

/-- The merge loop preserves P2 disjointness (together with
`txid_to_index ⊆ txid_by_height`), provided no listed txid carries a `None`
entry after a `Some` entry and every `None`-listed txid is unconfirmed at
loop entry (which pre-validation plus invalidation guarantee). -/
theorem inv3_mergeTxids :
    ∀ (l : List (ℕ × Option ℕ)) (s : SparseChain), Disjointness s → MapIntoSet s →
      NoConfirmedThenNone l →
      (∀ p ∈ l, p.2 = none → lookupA s.txid_to_index p.1 = none) →
      Disjointness (s.mergeTxids l) ∧ MapIntoSet (s.mergeTxids l) := by
  intro l
  induction l with
  | nil => exact fun s hd hm _ _ => ⟨hd, hm⟩
  | cons q rest ih =>
    intro s hd hm hA hC
    obtain ⟨t, conf⟩ := q
    have hArest : NoConfirmedThenNone rest := (List.pairwise_cons.mp hA).2
    have hAhead := (List.pairwise_cons.mp hA).1
    cases conf with
    | none =>
      rw [mergeTxids_cons_none]
      refine ih _ ?_ hm hArest ?_
      · -- disjointness after inserting `t` into the mempool
        intro x hx
        show lookupA s.txid_to_index x = none
        rcases (mem_insertMem s.mempool t x).mp hx with rfl | hx
        · exact hC (x, none) (List.mem_cons_self _ _) rfl
        · exact hd x hx
      · exact fun p hp hs => hC p (List.mem_cons_of_mem _ hp) hs
    | some h =>
      rw [mergeTxids_cons_some]
      by_cases hmem : (h, t) ∈ s.txid_by_height
      · rw [if_pos hmem]
        exact ih s hd hm hArest (fun p hp hs => hC p (List.mem_cons_of_mem _ hp) hs)
      · rw [if_neg hmem]
        refine ih _ ?_ ?_ hArest ?_
        · -- disjointness after confirming `t`
          intro x hx
          rcases (mem_removeMem s.mempool t x).mp hx with ⟨hx, hne⟩
          show lookupA (insertA s.txid_to_index t h) x = none
          rw [lookupA_insertA, if_neg hne]
          exact hd x hx
        · -- map ⊆ set after confirming `t`
          intro t' h' hl
          show (h', t') ∈ insertSortedPair s.txid_by_height (h, t)
          rw [mem_insertSortedPair]
          rw [show lookupA ({ s with
              txid_by_height := insertSortedPair s.txid_by_height (h, t)
              txid_to_index := insertA s.txid_to_index t h
              mempool := removeMem s.mempool t } : SparseChain).txid_to_index t' =
            lookupA (insertA s.txid_to_index t h) t' from rfl, lookupA_insertA] at hl
          rcases eq_or_ne t' t with rfl | hne
          · rw [if_pos rfl] at hl
            injection hl with hl
            subst hl
            exact Or.inl rfl
          · rw [if_neg hne] at hl
            exact Or.inr (hm t' h' hl)
        · -- later `None` entries are for other txids, still unconfirmed
          intro p hp hs
          show lookupA (insertA s.txid_to_index t h) p.1 = none
          rw [lookupA_insertA]
          rcases eq_or_ne p.1 t with he | hne
          · have := hAhead p hp he.symm hs
            cases this
          · rw [if_neg hne]
            exact hC p (List.mem_cons_of_mem _ hp) hs

/-! ### Preservation of the invariants by the remaining phases -/

theorem bij_invalidate (s : SparseChain) (H : ℕ) (hb : ChainBijection s) :
    ChainBijection (s.invalidateCheckpoints H) := by
  intro t h
  rw [lookupA_invalidate, mem_invalidate_set]
  by_cases hcond : ∃ p ∈ s.txid_by_height, H ≤ p.1 ∧ p.2 = t
  · rw [if_pos hcond]
    constructor
    · intro h0; cases h0
    · rintro ⟨hset, hlt⟩
      obtain ⟨⟨ph, pt⟩, hp, hH, hpt⟩ := hcond
      dsimp only at hH hpt
      rw [hpt] at hp
      have h1 := (hb t h).mpr hset
      have h2 := (hb t ph).mpr hp
      rw [h1] at h2
      injection h2 with h2
      omega
  · rw [if_neg hcond]
    constructor
    · intro hl
      refine ⟨(hb t h).mp hl, ?_⟩
      by_contra hge
      rw [Nat.not_lt] at hge
      exact hcond ⟨(h, t), (hb t h).mp hl, hge, rfl⟩
    · rintro ⟨hset, _⟩
      exact (hb t h).mpr hset

theorem mis_invalidate (s : SparseChain) (H : ℕ) (hm : MapIntoSet s) :
    MapIntoSet (s.invalidateCheckpoints H) := by
  intro t h hl
  rw [lookupA_invalidate] at hl
  revert hl
  split
  · intro hl; cases hl
  · rename_i hcond
    intro hl
    rw [mem_invalidate_set]
    refine ⟨hm t h hl, ?_⟩
    by_contra hge
    rw [Nat.not_lt] at hge
    exact hcond ⟨(h, t), hm t h hl, hge, rfl⟩

theorem disj_invalidate (s : SparseChain) (H : ℕ) (hd : Disjointness s) :
    Disjointness (s.invalidateCheckpoints H) := by
  intro x hx
  rw [invalidate_mempool] at hx
  rcases lookupA_invalidate_mono s H x with hnone | hsame
  · exact hnone
  · rw [hsame]
    revert hx
    split
    · exact fun hx => hd x hx
    · intro hx; cases hx

theorem bij_prune (s : SparseChain) (hb : ChainBijection s) :
    ChainBijection (s.pruneCheckpoints).2 := by
  intro t h
  rw [prune_txid_to_index, prune_txid_by_height]
  exact hb t h

theorem disj_prune (s : SparseChain) (hd : Disjointness s) :
    Disjointness (s.pruneCheckpoints).2 := by
  intro x hx
  rw [prune_mempool] at hx
  rw [prune_txid_to_index]
  exact hd x hx

theorem mis_prune (s : SparseChain) (hm : MapIntoSet s) :
    MapIntoSet (s.pruneCheckpoints).2 := by
  intro t h hl
  rw [prune_txid_to_index] at hl
  rw [prune_txid_by_height]
  exact hm t h hl

/-- The second component of the mutating tail: install the tip, merge, prune. -/
theorem applyCheckpointTail_snd (x : SparseChain) (c : CheckpointCandidate) :
    (applyCheckpointTail x c).2 =
      (SparseChain.mergeTxids
        (match lookupA x.checkpoints c.new_tip.height with
         | some _ => x
         | none =>
           { x with checkpoints := insertSortedMap x.checkpoints c.new_tip.height c.new_tip.hash })
        c.txids).pruneCheckpoints.2 := rfl

theorem bij_applyCheckpointTail (x : SparseChain) (c : CheckpointCandidate)
    (hb : ChainBijection x) (hB : NoTwoHeights c.txids)
    (hD : ∀ p ∈ c.txids, ∀ h, p.2 = some h →
      lookupA x.txid_to_index p.1 = none ∨ lookupA x.txid_to_index p.1 = some h) :
    ChainBijection (applyCheckpointTail x c).2 := by
  rw [applyCheckpointTail_snd]
  apply bij_prune
  rcases hck : lookupA x.checkpoints c.new_tip.height with _ | v
  · exact bij_mergeTxids c.txids _ hb hB hD
  · exact bij_mergeTxids c.txids _ hb hB hD

theorem inv3_applyCheckpointTail (x : SparseChain) (c : CheckpointCandidate)
    (hd : Disjointness x) (hm : MapIntoSet x) (hA : NoConfirmedThenNone c.txids)
    (hC : ∀ p ∈ c.txids, p.2 = none → lookupA x.txid_to_index p.1 = none) :
    Disjointness (applyCheckpointTail x c).2 ∧ MapIntoSet (applyCheckpointTail x c).2 := by
  rw [applyCheckpointTail_snd]
  rcases hck : lookupA x.checkpoints c.new_tip.height with _ | v
  · obtain ⟨hd2, hm2⟩ := inv3_mergeTxids c.txids
      { x with checkpoints := insertSortedMap x.checkpoints c.new_tip.height c.new_tip.hash }
      hd hm hA hC
    exact ⟨disj_prune _ hd2, mis_prune _ hm2⟩
  · obtain ⟨hd2, hm2⟩ := inv3_mergeTxids c.txids x hd hm hA hC
    exact ⟨disj_prune _ hd2, mis_prune _ hm2⟩

/-- When `apply_checkpoint` reports `Ok`, pre-validation passed and the final
state is the mutating tail applied either to the invalidated state (when
`invalidate` is set) or to the original state. -/
theorem applyCheckpoint_ok_shape (s : SparseChain) (c : CheckpointCandidate)
    (hok : (s.applyCheckpoint c).1 = .ok) :
    s.validateTxids c c.txids = none ∧
      ((∃ inv, c.invalidate = some inv ∧
          (s.applyCheckpoint c).2 = (applyCheckpointTail (s.invalidateCheckpoints inv.height) c).2) ∨
       (c.invalidate = none ∧ (s.applyCheckpoint c).2 = (applyCheckpointTail s c).2)) := by
  revert hok
  unfold applyCheckpoint applyCheckpointPostBase
  split
  · split
    · intro hok
      exact absurd hok (by simp)
    · split
      · rename_i r heq
        intro hok
        rw [show ((r, s) : ApplyResult × SparseChain).1 = r from rfl] at hok
        rw [hok] at heq
        exact absurd heq (validateTxids_ne_some_ok s c c.txids)
      · rename_i heq
        split
        · rename_i inv hinv
          dsimp only
          split
          · intro hok
            exact absurd hok (by simp)
          · exact fun _ => ⟨heq, Or.inl ⟨inv, hinv, rfl⟩⟩
        · rename_i hinv
          exact fun _ => ⟨heq, Or.inr ⟨hinv, rfl⟩⟩
  · split
    · rename_i r heq
      intro hok
      rw [show ((r, s) : ApplyResult × SparseChain).1 = r from rfl] at hok
      rw [hok] at heq
      exact absurd heq (validateTxids_ne_some_ok s c c.txids)
    · rename_i heq
      split
      · rename_i inv hinv
        dsimp only
        split
        · intro hok
          exact absurd hok (by simp)
        · exact fun _ => ⟨heq, Or.inl ⟨inv, hinv, rfl⟩⟩
      · rename_i hinv
        exact fun _ => ⟨heq, Or.inr ⟨hinv, rfl⟩⟩

theorem bij_applyCheckpoint (s : SparseChain) (c : CheckpointCandidate)
    (hb : ChainBijection s) (hB : NoTwoHeights c.txids) :
    ChainBijection (s.applyCheckpoint c).2 := by
  by_cases hok : (s.applyCheckpoint c).1 = .ok
  · obtain ⟨hval, hrest⟩ := applyCheckpoint_ok_shape s c hok
    have hmis : MapIntoSet s := fun t h hl => (hb t h).mp hl
    have hspec := validateTxids_none_spec s c c.txids hval
    rcases hrest with ⟨inv, hinv, heq⟩ | ⟨hinv, heq⟩
    · rw [heq]
      apply bij_applyCheckpointTail _ _ (bij_invalidate s inv.height hb) hB
      intro p hp h hs
      rcases hl : lookupA s.txid_to_index p.1 with _ | h₀
      · rcases lookupA_invalidate_mono s inv.height p.1 with hnone | hsame
        · exact Or.inl hnone
        · rw [hsame, hl]
          exact Or.inl rfl
      · rcases hspec p hp h₀ hl with ⟨inv2, hinv2, hle⟩ | hsame
        · rw [hinv] at hinv2
          injection hinv2 with hinv2
          subst hinv2
          exact Or.inl (lookupA_invalidate_covered s _ p.1 h₀ hmis hl hle)
        · rw [hs] at hsame
          injection hsame with hsame
          subst hsame
          rcases lookupA_invalidate_mono s inv.height p.1 with hnone | hsame2
          · exact Or.inl hnone
          · rw [hsame2, hl]
            exact Or.inr rfl
    · rw [heq]
      apply bij_applyCheckpointTail _ _ hb hB
      intro p hp h hs
      rcases hl : lookupA s.txid_to_index p.1 with _ | h₀
      · exact Or.inl rfl
      · rcases hspec p hp h₀ hl with ⟨inv2, hinv2, _⟩ | hsame
        · rw [hinv] at hinv2
          cases hinv2
        · rw [hs] at hsame
          injection hsame with hsame
          subst hsame
          exact Or.inr rfl
  · rw [applyCheckpoint_not_ok s c hok]
    exact hb

theorem inv3_applyCheckpoint (s : SparseChain) (c : CheckpointCandidate)
    (hd : Disjointness s) (hm : MapIntoSet s) (hA : NoConfirmedThenNone c.txids) :
    Disjointness (s.applyCheckpoint c).2 ∧ MapIntoSet (s.applyCheckpoint c).2 := by
  by_cases hok : (s.applyCheckpoint c).1 = .ok
  · obtain ⟨hval, hrest⟩ := applyCheckpoint_ok_shape s c hok
    have hspec := validateTxids_none_spec s c c.txids hval
    rcases hrest with ⟨inv, hinv, heq⟩ | ⟨hinv, heq⟩
    · rw [heq]
      apply inv3_applyCheckpointTail _ _ (disj_invalidate s inv.height hd)
        (mis_invalidate s inv.height hm) hA
      intro p hp hs
      rcases hl : lookupA s.txid_to_index p.1 with _ | h₀
      · rcases lookupA_invalidate_mono s inv.height p.1 with hnone | hsame
        · exact hnone
        · rw [hsame, hl]
      · rcases hspec p hp h₀ hl with ⟨inv2, hinv2, hle⟩ | hsame
        · rw [hinv] at hinv2
          injection hinv2 with hinv2
          subst hinv2
          exact lookupA_invalidate_covered s _ p.1 h₀ hm hl hle
        · rw [hs] at hsame
          cases hsame
    · rw [heq]
      apply inv3_applyCheckpointTail _ _ hd hm hA
      intro p hp hs
      rcases hl : lookupA s.txid_to_index p.1 with _ | h₀
      · rfl
      · rcases hspec p hp h₀ hl with ⟨inv2, hinv2, _⟩ | hsame
        · rw [hinv] at hinv2
          cases hinv2
        · rw [hs] at hsame
          cases hsame
  · rw [applyCheckpoint_not_ok s c hok]
    exact ⟨hd, hm⟩

end SparseChain

/-! ### Preservation of the invariants by every operation -/

/-- The candidate built by `apply_block_txs` lists every txid at the same
height, so it trivially has no `Some`-then-`None` pair. -/
theorem noConfirmedThenNone_mapped (txs : List ℕ) (hgt : ℕ) :
    NoConfirmedThenNone (txs.map (fun txid => (txid, some hgt))) := by
  induction txs with
  | nil => exact List.Pairwise.nil
  | cons t rest ih =>
    refine List.Pairwise.cons ?_ ih
    intro q hq _ hq2
    rcases List.mem_map.mp hq with ⟨x, _, rfl⟩
    cases hq2

/-- The candidate built by `apply_block_txs` lists every txid at the same
height, so no txid is listed at two different heights. -/
theorem noTwoHeights_mapped (txs : List ℕ) (hgt : ℕ) :
    NoTwoHeights (txs.map (fun txid => (txid, some hgt))) := by
  induction txs with
  | nil => exact List.Pairwise.nil
  | cons t rest ih =>
    refine List.Pairwise.cons ?_ ih
    intro q hq _
    rcases List.mem_map.mp hq with ⟨x, _, rfl⟩
    exact Or.inr (Or.inr rfl)

theorem SparseChain.bij_applyBlockTxs (s : SparseChain) (b : BlockId) (txs : List ℕ)
    (hb : ChainBijection s) : ChainBijection (s.applyBlockTxs b txs).2 := by
  unfold SparseChain.applyBlockTxs
  dsimp only
  rcases hck : s.checkpointAt b.height with _ | m
  · exact bij_applyCheckpoint s _ hb (noTwoHeights_mapped txs b.height)
  · dsimp only
    by_cases hcond : m.hash ≠ b.hash
    · rw [if_pos hcond]
      exact bij_applyCheckpoint s _ hb (noTwoHeights_mapped txs b.height)
    · rw [if_neg hcond]
      exact bij_applyCheckpoint s _ hb (noTwoHeights_mapped txs b.height)

theorem SparseChain.inv3_applyBlockTxs (s : SparseChain) (b : BlockId) (txs : List ℕ)
    (hd : Disjointness s) (hm : MapIntoSet s) :
    Disjointness (s.applyBlockTxs b txs).2 ∧ MapIntoSet (s.applyBlockTxs b txs).2 := by
  unfold SparseChain.applyBlockTxs
  dsimp only
  rcases hck : s.checkpointAt b.height with _ | m
  · exact inv3_applyCheckpoint s _ hd hm (noConfirmedThenNone_mapped txs b.height)
  · dsimp only
    by_cases hcond : m.hash ≠ b.hash
    · rw [if_pos hcond]
      exact inv3_applyCheckpoint s _ hd hm (noConfirmedThenNone_mapped txs b.height)
    · rw [if_neg hcond]
      exact inv3_applyCheckpoint s _ hd hm (noConfirmedThenNone_mapped txs b.height)

theorem SparseChain.bij_disconnectBlock (s : SparseChain) (b : BlockId)
    (hb : ChainBijection s) : ChainBijection (s.disconnectBlock b) := by
  unfold SparseChain.disconnectBlock
  rcases hl : lookupA s.checkpoints b.height with _ | v
  · exact hb
  · dsimp only
    split
    · exact bij_invalidate s b.height hb
    · exact hb

theorem SparseChain.inv3_disconnectBlock (s : SparseChain) (b : BlockId)
    (hd : Disjointness s) (hm : MapIntoSet s) :
    Disjointness (s.disconnectBlock b) ∧ MapIntoSet (s.disconnectBlock b) := by
  unfold SparseChain.disconnectBlock
  rcases hl : lookupA s.checkpoints b.height with _ | v
  · exact ⟨hd, hm⟩
  · dsimp only
    split
    · refine ⟨?_, mis_invalidate s b.height hm⟩
      intro x hx
      cases hx
    · exact ⟨hd, hm⟩

/-- One step preserves the P1 bijection, provided an `apply_checkpoint`
candidate never lists the same txid at two different heights. -/
theorem ChainOp.bij_step (s : SparseChain) (op : ChainOp) (hb : ChainBijection s)
    (hg : op.GoodHeights) : ChainBijection (op.step s) := by
  cases op with
  | applyCheckpoint c => exact SparseChain.bij_applyCheckpoint s c hb hg
  | applyBlockTxs b txs => exact SparseChain.bij_applyBlockTxs s b txs hb
  | disconnectBlock b => exact SparseChain.bij_disconnectBlock s b hb
  | clearMempool => exact hb
  | setCheckpointLimit l => exact hb
  | pruneCheckpoints => exact SparseChain.bij_prune s hb

/-- One step preserves P2 disjointness (with `txid_to_index ⊆
txid_by_height`), provided an `apply_checkpoint` candidate never lists a
txid as unconfirmed after listing it as confirmed. -/
theorem ChainOp.inv3_step (s : SparseChain) (op : ChainOp)
    (hd : Disjointness s) (hm : MapIntoSet s) (hg : op.GoodNoMix) :
    Disjointness (op.step s) ∧ MapIntoSet (op.step s) := by
  cases op with
  | applyCheckpoint c => exact SparseChain.inv3_applyCheckpoint s c hd hm hg
  | applyBlockTxs b txs => exact SparseChain.inv3_applyBlockTxs s b txs hd hm
  | disconnectBlock b => exact SparseChain.inv3_disconnectBlock s b hd hm
  | clearMempool =>
    refine ⟨?_, hm⟩
    intro x hx
    cases hx
  | setCheckpointLimit l => exact ⟨hd, hm⟩
  | pruneCheckpoints =>
    exact ⟨SparseChain.disj_prune s hd, SparseChain.mis_prune s hm⟩

theorem bij_foldl : ∀ (ops : List ChainOp) (s : SparseChain), ChainBijection s →
    (∀ op ∈ ops, op.GoodHeights) → ChainBijection (ops.foldl ChainOp.step s) := by
  intro ops
  induction ops with
  | nil => exact fun s hb _ => hb
  | cons op rest ih =>
    intro s hb hg
    exact ih (op.step s) (op.bij_step s hb (hg op (List.mem_cons_self _ _)))
      (fun o ho => hg o (List.mem_cons_of_mem _ ho))

theorem inv3_foldl : ∀ (ops : List ChainOp) (s : SparseChain),
    Disjointness s → MapIntoSet s → (∀ op ∈ ops, op.GoodNoMix) →
    Disjointness (ops.foldl ChainOp.step s) ∧ MapIntoSet (ops.foldl ChainOp.step s) := by
  intro ops
  induction ops with
  | nil => exact fun s hd hm _ => ⟨hd, hm⟩
  | cons op rest ih =>
    intro s hd hm hg
    obtain ⟨hd2, hm2⟩ := op.inv3_step s hd hm (hg op (List.mem_cons_self _ _))
    exact ih (op.step s) hd2 hm2 (fun o ho => hg o (List.mem_cons_of_mem _ ho))

/-! ## Claims C3 and C4, settled -/

/-- C3, counterexample: one `apply_checkpoint` from the empty chain whose
candidate lists txid 0 as confirmed at height 1 and then as unconfirmed
leaves txid 0 both in `txid_to_index` and in the mempool: the merge loop
first inserts it as confirmed (removing it from the mempool), then the later
`None` entry re-inserts it into the mempool. -/
theorem C3_same_txid_some_then_none_breaks_disjointness :
    ¬ Disjointness (runChain [.applyCheckpoint
      { txids := [(0, some 1), (0, none)], base_tip := none, invalidate := none,
        new_tip := ⟨1, 0⟩ }]) := by decide

/-- C3 (amended): after every sequence of `SparseChain` operations in which
no `apply_checkpoint` candidate lists a txid as unconfirmed (`None`) after
listing the same txid as confirmed (`Some _`), the set of confirmed txids
(the domain of `txid_to_index`) and the mempool are disjoint. -/
theorem C3_confirmed_mempool_disjoint (ops : List ChainOp)
    (hg : ∀ op ∈ ops, op.GoodNoMix) : Disjointness (runChain ops) :=
  (inv3_foldl ops SparseChain.empty (fun _ hx => absurd hx (List.not_mem_nil _))
    (fun _ _ hl => absurd hl (by simp [SparseChain.empty, lookupA])) hg).1

/-- Witness for C3 (amended): a run mixing a block connection, a checkpoint
candidate with distinct confirmed and unconfirmed txids, and a prune. -/
theorem C3_confirmed_mempool_disjoint_witness :
    (∀ op ∈ ([.applyBlockTxs ⟨1, 9⟩ [7],
              .applyCheckpoint { txids := [(5, some 1), (8, none)],
                                 base_tip := some ⟨1, 9⟩, invalidate := none,
                                 new_tip := ⟨2, 10⟩ },
              .pruneCheckpoints] : List ChainOp), op.GoodNoMix) ∧
    Disjointness (runChain [.applyBlockTxs ⟨1, 9⟩ [7],
              .applyCheckpoint { txids := [(5, some 1), (8, none)],
                                 base_tip := some ⟨1, 9⟩, invalidate := none,
                                 new_tip := ⟨2, 10⟩ },
              .pruneCheckpoints]) :=
  ⟨by decide, C3_confirmed_mempool_disjoint _ (by decide)⟩

/-- C4, counterexample: one `apply_checkpoint` from the empty chain whose
candidate lists txid 0 at heights 1 and 2 leaves `txid_by_height` with both
`(1,0)` and `(2,0)` while `txid_to_index` maps 0 to 2 only: the pair `(1,0)`
is in the ordered set but `0 ↦ 1` is not in the map, so the two structures
are not a bijection. -/
theorem C4_same_txid_two_heights_breaks_bijection :
    ¬ (lookupA (runChain [.applyCheckpoint
          { txids := [(0, some 1), (0, some 2)], base_tip := none,
            invalidate := none, new_tip := ⟨2, 0⟩ }]).txid_to_index 0 = some 1 ↔
        (1, 0) ∈ (runChain [.applyCheckpoint
          { txids := [(0, some 1), (0, some 2)], base_tip := none,
            invalidate := none, new_tip := ⟨2, 0⟩ }]).txid_by_height) := by decide

/-- C4 (amended): after every sequence of `SparseChain` operations in which
no `apply_checkpoint` candidate lists the same txid at two different
confirmation heights, the two confirmed-transaction structures are a
bijection: `txid ↦ h ∈ txid_to_index ⟺ (h, txid) ∈ txid_by_height`. -/
theorem C4_chain_bijection (ops : List ChainOp)
    (hg : ∀ op ∈ ops, op.GoodHeights) : ChainBijection (runChain ops) :=
  bij_foldl ops SparseChain.empty
    (fun _ _ => ⟨fun hl => absurd hl (by simp [SparseChain.empty, lookupA]),
                 fun hm => absurd hm (List.not_mem_nil _)⟩) hg

/-- Witness for C4 (amended): the same run as the C3 witness. -/
theorem C4_chain_bijection_witness :
    (∀ op ∈ ([.applyBlockTxs ⟨1, 9⟩ [7],
              .applyCheckpoint { txids := [(5, some 1), (8, none)],
                                 base_tip := some ⟨1, 9⟩, invalidate := none,
                                 new_tip := ⟨2, 10⟩ },
              .pruneCheckpoints] : List ChainOp), op.GoodHeights) ∧
    ChainBijection (runChain [.applyBlockTxs ⟨1, 9⟩ [7],
              .applyCheckpoint { txids := [(5, some 1), (8, none)],
                                 base_tip := some ⟨1, 9⟩, invalidate := none,
                                 new_tip := ⟨2, 10⟩ },
              .pruneCheckpoints]) :=
  ⟨by decide, C4_chain_bijection _ (by decide)⟩

end BdkCore
